import Mathlib

/-!
Verification development for the SQP solver in `ap_solvers/sqp.py`.

The solver's numeric backend (`dense_mp_matrix` / mpmath arbitrary-precision
scalars) is modelled by exact rationals `ℚ`; vectors of length `n` are
`Fin n → ℚ` and matrices are Mathlib matrices over `ℚ`.  Every function of
the `Sqp` class is translated line by line; the mutable instance attributes
(`rho`, `hessian_approximation`, `f_grad_k`, `jacobian_k`,
`x_used_for_gradient_computation`) form an explicit state record that is
threaded through the translated methods.  The external QP subproblem solver
(`qp.solve_qp`) is an injected oracle field, and exceptions (`assert`,
`raise ValueError`) become `Except` results.
-/

open Matrix

namespace SqpSpec

/-- Column vectors of the Python code (`matrix(n, 1)`), as functions. -/
abbrev Vec (n : ℕ) := Fin n → ℚ

/-- Dense rational matrices standing for `dense_mp_matrix.matrix`. -/
abbrev Mat (m n : ℕ) := Matrix (Fin m) (Fin n) ℚ

/-- Modelled from the spec: the numeric backend's `max` reduction over a
vector's elements (the backend `dense_mp_matrix` is outside `src/`).  On a
nonempty list this is the greatest element, exactly as Python's builtin
`max`; the value `0` returned for an empty vector is a modelling choice
that no theorem below depends on. -/
def pyMax (l : List ℚ) : ℚ :=
  match l with
  | [] => 0
  | x :: xs => xs.foldl max x

/-- Modelled from the spec: the backend's `min` reduction, analogous to
`pyMax`. -/
def pyMin (l : List ℚ) : ℚ :=
  match l with
  | [] => 0
  | x :: xs => xs.foldl min x

/-- Greatest element of a vector, `max(v)` in the Python code. -/
def vecMax (v : Vec k) : ℚ := pyMax (List.ofFn v)

/-- Least element of a vector, `min(v)` in the Python code. -/
def vecMin (v : Vec k) : ℚ := pyMin (List.ofFn v)

/-- Fatal error conditions of the solver: `raise ValueError` in
`_line_search`, and the failed `assert`s on the QP subsolver's residual
and gap in `_solve_qp`. -/
inductive SqpError where
  | lineSearchFailure
  | qpSubproblemFailure
deriving DecidableEq

/-- Return value of the external `qp.solve_qp` collaborator:
`x, s, pi, f, res, gap, iteration`. -/
structure QPResult (n m : ℕ) where
  x : Vec n
  s : Vec m
  pi : Vec m
  obj : ℚ
  res : ℚ
  gap : ℚ
  iterations : ℕ

/-- Immutable configuration of an `Sqp` instance: the objective, its
optional analytic gradient, the `m` constraint functions with their
optional analytic gradients, the tolerance, and the external QP subsolver
(the import `qp.solve_qp`, injected as an oracle).  Its argument order
mirrors `solve_qp(Q, c, A_eq, b_eq, A_ineq, b_ineq, tol, max_iter)`;
the trailing `matrix`/`False` arguments of the Python call site carry no
information and are dropped. -/
structure Sqp (n m : ℕ) where
  f : Vec n → ℚ
  f_grad : Option (Vec n → Vec n)
  cs : Fin m → Vec n → ℚ
  c_grads : Fin m → Option (Vec n → Vec n)
  tol : ℚ
  qpSolver : Mat n n → Vec n → List (Vec n) → List ℚ → Mat m n → Vec m → ℚ → ℕ → QPResult n m

/-- Constructor constant `self.eta = mp.mpf('0.5')`. -/
def sqpEta : ℚ := 1/2

/-- Constructor derived field `self.minor_tol = tol / 100`. -/
def Sqp.minorTol (s : Sqp n m) : ℚ := s.tol / 100

/-- Mutable instance state of an `Sqp` object: the penalty vector
`self.rho`, the Hessian approximation, and the gradient cache
(`self.f_grad_k`, `self.jacobian_k`, `self.x_used_for_gradient_computation`).
Attributes that Python leaves unset until first assignment are given
arbitrary initial values by `initState`. -/
@[ext]
structure SqpState (n m : ℕ) where
  rho : Vec m
  H : Mat n n
  xc : Option (Vec n)
  fgrad : Vec n
  jac : Mat m n

/-- State established by `Sqp.__init__`: `self.rho = [mp.zero] * len(cs)`
and `self.x_used_for_gradient_computation = None`; the remaining fields
are first assigned later and hold arbitrary placeholder values here. -/
def initState (n m : ℕ) : SqpState n m :=
  { rho := fun _ => 0, H := 0, xc := none, fgrad := fun _ => 0, jac := 0 }

/-- The method `evaluate_constraints`. -/
def evaluateConstraints (s : Sqp n m) (x : Vec n) : Vec m :=
  fun i => s.cs i x

/-- The method `_finite_difference_grad`: central differences with step
`h = self.tol`, component `i` shifting only coordinate `i` (the Python
code mutates and restores `x_shift[i]`, which `Function.update` renders). -/
def finiteDifferenceGrad (s : Sqp n m) (f : Vec n → ℚ) (x : Vec n) : Vec n :=
  fun i =>
    (f (Function.update x i (x i + s.tol)) - f (Function.update x i (x i - s.tol))) / (2 * s.tol)

/-- Objective gradient actually used by `_compute_gradients`:
`self.f_grad(x) if self.f_grad else self._finite_difference_grad(self.f, x)`. -/
def gradAt (s : Sqp n m) (x : Vec n) : Vec n :=
  match s.f_grad with
  | some g => g x
  | none => finiteDifferenceGrad s s.f x

/-- Row `i` of the Jacobian as `_compute_gradients` builds it: the
constraint's analytic gradient when supplied, otherwise finite
differences on that constraint. -/
def jacRowAt (s : Sqp n m) (i : Fin m) (x : Vec n) : Vec n :=
  match s.c_grads i with
  | some g => g x
  | none => finiteDifferenceGrad s (s.cs i) x

/-- The full Jacobian `self.jacobian_k` as recomputed at `x`. -/
def jacAt (s : Sqp n m) (x : Vec n) : Mat m n :=
  Matrix.of fun i j => jacRowAt s i x j

/-- The method `_compute_gradients`: a no-op when `x` equals the cached
point, otherwise recompute and store the gradient, the Jacobian and `x`. -/
def computeGradients (s : Sqp n m) (st : SqpState n m) (x : Vec n) : SqpState n m :=
  if st.xc = some x then st
  else { st with fgrad := gradAt s x, jac := jacAt s x, xc := some x }

/-- Well-formedness of the gradient cache: whatever point is recorded as
`x_used_for_gradient_computation`, the stored gradient and Jacobian are the
ones `_compute_gradients` would produce there.  Every reachable state of
the solver satisfies this for its cached point; it is the hypothesis under
which cached reads can be identified with fresh recomputation. -/
def cacheWF (s : Sqp n m) (st : SqpState n m) (x : Vec n) : Prop :=
  st.xc = some x → st.fgrad = gradAt s x ∧ st.jac = jacAt s x

/-- Loop body of `_check_convergence` over the constraint indices, with the
early `return False` exits.  Note that the Python source indents the
stationarity test *inside* this loop, so it executes once per constraint
(and not at all when the constraint list is empty). -/
def ccLoop (s : Sqp n m) (x : Vec n) (pi : Vec m) (tauX tauPi : ℚ) :
    List (Fin m) → SqpState n m → Bool × SqpState n m
  | [], st => (true, st)
  | i :: rest, st =>
    let ci := s.cs i x
    if ci < -tauX then (false, st)
    else if tauPi < ci * pi i then (false, st)
    else
      let st1 := computeGradients s st x
      let d := fun j => st1.fgrad j - ((st1.jac)ᵀ *ᵥ pi) j
      if ∃ j, tauPi < |d j| then (false, st1)
      else ccLoop s x pi tauX tauPi rest st1

/-- The method `_check_convergence`. -/
def checkConvergence (s : Sqp n m) (st : SqpState n m) (x : Vec n) (pi : Vec m) :
    Bool × SqpState n m :=
  let tauX := s.tol * (1 + vecMax x)
  let tauPi := s.tol * (1 + vecMax pi)
  if ∃ i, pi i < -tauPi then (false, st)
  else ccLoop s x pi tauX tauPi (List.finRange m) st

/-- The method `_solve_identity_hessian_single_constraint_positive_problem`:
minimize `x'x` subject to `a'x = b`, `x ≥ 0`, by sign normalization and
projection onto the positive coordinates of `a`. -/
def solvePosProblem (a : Vec m) (b : ℚ) : Vec m :=
  let ab : Vec m × ℚ := if b < 0 then (fun i => -a i, -b) else (a, b)
  let apNorm : ℚ := ∑ i, if 0 < ab.1 i then ab.1 i * ab.1 i else 0
  fun i => max ((ab.2 / apNorm) * ab.1 i) 0

/-- The vector `cMinusS2` of `_update_rho`: componentwise
`(c_j(x_k) - s_{k,j})²`. -/
def rhoA (s : Sqp n m) (xk : Vec n) (sk : Vec m) : Vec m :=
  fun j => (evaluateConstraints s xk j - sk j) ^ 2

/-- The scalar `rhs` of `_update_rho`, read off from the state after
`_compute_gradients(x_k)`: with `p_x = x_hat - x_k`,
`p_pi = pi_hat - pi_k` and `cMinusS = c(x_k) - s_k`, it is
`g' p_x + (pi_k - p_pi)' cMinusS - 0.5 p_x' H p_x`. -/
def rhoRhs (s : Sqp n m) (st1 : SqpState n m) (xk : Vec n) (sk pik : Vec m)
    (xhat : Vec n) (pihat : Vec m) : ℚ :=
  st1.fgrad ⬝ᵥ (fun i => xhat i - xk i)
    + (fun i => pik i - (pihat i - pik i)) ⬝ᵥ (fun j => evaluateConstraints s xk j - sk j)
    - (1/2) * ((fun i => xhat i - xk i) ⬝ᵥ (st1.H *ᵥ fun i => xhat i - xk i))

/-- The method `_update_rho`: recompute gradients at `x_k`, form
`a_j = (c_j(x_k) - s_{k,j})²` and the scalar `rhs`; when `rhs > 0` and
`max(a) > 0`, replace `self.rho` wholesale by the closed-form minimal-norm
solution, otherwise leave it unchanged. -/
def updateRho (s : Sqp n m) (st : SqpState n m) (xk : Vec n) (sk pik : Vec m)
    (xhat : Vec n) (pihat : Vec m) : SqpState n m :=
  let st1 := computeGradients s st xk
  let a := rhoA s xk sk
  let rhs := rhoRhs s st1 xk sk pik xhat pihat
  if 0 < rhs ∧ 0 < vecMax a then { st1 with rho := solvePosProblem a rhs } else st1

/-- The local `merit_function` of `_line_search`:
`φ(x, s, π) = f(x) - π'(c(x) - s) + ½ Σ_j ρ_j (c_j(x) - s_j)²`. -/
def meritFunction (s : Sqp n m) (rho : Vec m) (x : Vec n) (sl pi : Vec m) : ℚ :=
  s.f x - pi ⬝ᵥ (fun j => evaluateConstraints s x j - sl j)
    + ∑ j, (1/2) * rho j * (evaluateConstraints s x j - sl j) ^ 2

/-- Convex combination `(1 - α)·v + α·w` formed for `x`, `s` and `π` in
each line-search trial. -/
def lsCand (v w : Vec k) (alpha : ℚ) : Vec k :=
  fun i => (1 - alpha) * v i + alpha * w i

/-- The `for i in range(30)` loop of `_line_search`: try the current `α`,
accept on strict merit decrease, otherwise halve `α`; `none` when the
budget is exhausted. -/
def lsLoop (s : Sqp n m) (rho : Vec m) (xk : Vec n) (sk pik : Vec m) (xhat : Vec n)
    (shat pihat : Vec m) (m0 : ℚ) : ℕ → ℚ → Option (Vec n × Vec m × Vec m × ℚ)
  | 0, _ => none
  | fuel + 1, alpha =>
    let x := lsCand xk xhat alpha
    let sl := lsCand sk shat alpha
    let pi := lsCand pik pihat alpha
    if meritFunction s rho x sl pi < m0 then some (x, sl, pi, alpha)
    else lsLoop s rho xk sk pik xhat shat pihat m0 fuel (alpha / 2)

/-- The method `_line_search`: first `_update_rho`, then backtracking from
`α = 1` with at most 30 trials; exhausting them raises
`ValueError("Current point could not be improved")`, modelled as
`SqpError.lineSearchFailure`. -/
def lineSearch (s : Sqp n m) (st : SqpState n m) (xk : Vec n) (sk pik : Vec m)
    (xhat : Vec n) (shat pihat : Vec m) :
    Except SqpError (Vec n × Vec m × Vec m × ℚ) × SqpState n m :=
  let st1 := updateRho s st xk sk pik xhat pihat
  let m0 := meritFunction s st1.rho xk sk pik
  match lsLoop s st1.rho xk sk pik xhat shat pihat m0 30 1 with
  | some r => (Except.ok r, st1)
  | none => (Except.error SqpError.lineSearchFailure, st1)

/-- Outcome of the `perform_update` decision logic in
`_update_hessian_approximation`: whether an update is performed, whether
the SNOPT-style correction was applied to `y`, and the final `y` and
`yTdelta` in scope when the decision is made. -/
structure HessDecision (n : ℕ) where
  performed : Bool
  corrected : Bool
  y : Vec n
  yTdelta : ℚ

/-- The decision portion of `_update_hessian_approximation`: the primary
curvature test `y'delta ≥ sigma`, and on failure the second SNOPT
modification with `beta`, `v = deltaJ·delta`, `w`, `a_i = v_i·w_i`; when
the branch condition holds and `ω'ω < 1e6` the corrected `y` is installed
and `perform_update` is set to `True` with no further test. -/
def hessDecide (y0 delta : Vec n) (sigma : ℚ) (deltaJ : Mat m n) (w : Vec m) :
    HessDecision n :=
  let yTdelta0 := y0 ⬝ᵥ delta
  if sigma ≤ yTdelta0 then ⟨true, false, y0, yTdelta0⟩
  else
    let beta := sigma - yTdelta0
    let v := deltaJ *ᵥ delta
    let a := fun i => v i * w i
    if (0 < beta ∧ 0 < vecMax a) ∨ (beta < 0 ∧ vecMin a < 0) then
      let omega := solvePosProblem a beta
      if omega ⬝ᵥ omega < 1000000 then
        let y1 := fun j => y0 j + ((deltaJ)ᵀ *ᵥ fun i => omega i * w i) j
        ⟨true, true, y1, y1 ⬝ᵥ delta⟩
      else ⟨false, false, y0, yTdelta0⟩
    else ⟨false, false, y0, yTdelta0⟩

/-- Result of `_update_hessian_approximation`: the post-call state together
with the decision data, exposed so that theorems can speak about which
branch ran and which `y` the rank-2 update used. -/
structure HessResult (n m : ℕ) where
  st : SqpState n m
  performed : Bool
  corrected : Bool
  y : Vec n
  yTdelta : ℚ

/-- Application of a `HessDecision` to the state, the `perform_update`
conditional at the end of `_update_hessian_approximation`: when set,
`q = H·delta` is formed and `H` is replaced by
`H + y·y'/(y'delta) + q·q'/(q'delta)`. -/
def applyHessDecision (st1 : SqpState n m) (delta : Vec n) (d : HessDecision n) :
    HessResult n m :=
  if d.performed then
    let q := st1.H *ᵥ delta
    let qTdelta := q ⬝ᵥ delta
    ⟨{ st1 with
        H := Matrix.of fun i j =>
          st1.H i j + d.y i * d.y j / d.yTdelta + q i * q j / qTdelta },
      d.performed, d.corrected, d.y, d.yTdelta⟩
  else ⟨st1, d.performed, d.corrected, d.y, d.yTdelta⟩

/-- The method `_update_hessian_approximation`: copy the cached gradient
and Jacobian (values at `x0`), recompute gradients at `x1`, form `delta`,
`deltaJ`, `y`, the damping threshold `sigma = α(1-η)p'Hp`, decide the
update, and when performed replace `H` by
`H + y·y'/(y'delta) + q·q'/(q'delta)` with `q = H·delta`. -/
def updateHessianApproximation (s : Sqp n m) (st : SqpState n m) (x0 x1 xhat : Vec n)
    (pi1 : Vec m) (alpha : ℚ) : HessResult n m :=
  let fGrad0 := st.fgrad
  let jacobian0 := st.jac
  let st1 := computeGradients s st x1
  let delta := fun i => x1 i - x0 i
  let deltaJ := st1.jac - jacobian0
  let y0 := fun j => st1.fgrad j - fGrad0 j - ((deltaJ)ᵀ *ᵥ pi1) j
  let p := fun i => xhat i - x0 i
  let sigma := alpha * (1 - sqpEta) * (p ⬝ᵥ (st1.H *ᵥ p))
  let w := fun i =>
    evaluateConstraints s x1 i - evaluateConstraints s x0 i - (jacobian0 *ᵥ delta) i
  applyHessDecision st1 delta (hessDecide y0 delta sigma deltaJ w)

/-- Symmetry of a rational matrix. -/
def symmQ (M : Mat k k) : Prop := ∀ i j, M i j = M j i

/-- Positive definiteness of a rational matrix: `v'Mv > 0` for every
nonzero `v`. -/
def posDefQ (M : Mat k k) : Prop := ∀ v : Vec k, v ≠ 0 → 0 < v ⬝ᵥ (M *ᵥ v)

/-- The argument tuple `_solve_qp` hands to the external `qp.solve_qp`:
`(Q, c, A_eq, b_eq, A_ineq, b_ineq, tolerance, max_iterations)`.  `c` is
formed from the cached gradient *before* the `_compute_gradients(x_k)`
call inside `_solve_qp`, while `A_ineq`/`b_ineq` use the state after it,
exactly as in the source. -/
def qpCallArgs (s : Sqp n m) (st : SqpState n m) (xk : Vec n) :
    Mat n n × Vec n × List (Vec n) × List ℚ × Mat m n × Vec m × ℚ × ℕ :=
  let q := st.H
  let c := fun j => st.fgrad j - (q *ᵥ xk) j
  let st1 := computeGradients s st xk
  (q, c, [], [], st1.jac,
    fun i => (st1.jac *ᵥ xk) i - evaluateConstraints s xk i, s.minorTol, 100)

/-- The method `_solve_qp`: build the canonical QP, call the external
subsolver, and `assert res < minor_tol` and `gap < minor_tol`; a failed
assertion is `SqpError.qpSubproblemFailure`. -/
def solveQp (s : Sqp n m) (st : SqpState n m) (xk : Vec n) :
    Except SqpError (Vec n × Vec m × Vec m × ℕ) × SqpState n m :=
  let args := qpCallArgs s st xk
  let st1 := computeGradients s st xk
  let r := s.qpSolver args.1 args.2.1 args.2.2.1 args.2.2.2.1 args.2.2.2.2.1
    args.2.2.2.2.2.1 args.2.2.2.2.2.2.1 args.2.2.2.2.2.2.2
  if r.res < s.minorTol then
    if r.gap < s.minorTol then (Except.ok (r.x, r.s, r.pi, r.iterations), st1)
    else (Except.error SqpError.qpSubproblemFailure, st1)
  else (Except.error SqpError.qpSubproblemFailure, st1)

/-- State mutation performed by `solve` before its iteration loop: the
Hessian approximation is reset to the identity.  `x_k`, `s_k`, `pi_k` are
*local* variables of `solve`, re-seeded as `x0`, `0`, `0`; no other
instance attribute — in particular not `self.rho` — is touched. -/
def solveInitState (st : SqpState n m) : SqpState n m :=
  { st with H := 1 }

/-- The `for iteration in range(max_iter)` loop of `solve`, by remaining
fuel: compute gradients, solve the QP, line-search, update the Hessian,
and stop early when `_check_convergence` passes; errors propagate
immediately.  Exhausting the fuel returns the current iterate without any
failure signal. -/
def solveLoop (s : Sqp n m) : ℕ → SqpState n m → Vec n → Vec m → Vec m →
    Except SqpError (Vec n × ℚ × Vec m) × SqpState n m
  | 0, st, xk, _, _ => (Except.ok (xk, s.f xk, evaluateConstraints s xk), st)
  | fuel + 1, st, xk, sk, pik =>
    let st1 := computeGradients s st xk
    match solveQp s st1 xk with
    | (Except.error e, st2) => (Except.error e, st2)
    | (Except.ok (xhat, shat, pihat, _), st2) =>
      match lineSearch s st2 xk sk pik xhat shat pihat with
      | (Except.error e, st3) => (Except.error e, st3)
      | (Except.ok (xk1, sk1, pik1, alpha), st3) =>
        let r := updateHessianApproximation s st3 xk xk1 xhat pik1 alpha
        let cc := checkConvergence s r.st xk1 pik1
        if cc.1 then (Except.ok (xk1, s.f xk1, evaluateConstraints s xk1), cc.2)
        else solveLoop s fuel cc.2 xk1 sk1 pik1

/-- The method `solve`: reset `H` to the identity, seed
`x_k = x0, s_k = 0, pi_k = 0`, and run up to `max_iter` iterations. -/
def solve (s : Sqp n m) (st : SqpState n m) (x0 : Vec n) (maxIter : ℕ) :
    Except SqpError (Vec n × ℚ × Vec m) × SqpState n m :=
  solveLoop s maxIter (solveInitState st) x0 (fun _ => 0) (fun _ => 0)

/-- Placeholder QP oracle for instances whose scenario never consults it. -/
def qpUnused (n m : ℕ) :
    Mat n n → Vec n → List (Vec n) → List ℚ → Mat m n → Vec m → ℚ → ℕ → QPResult n m :=
  fun _ _ _ _ _ _ _ _ => ⟨fun _ => 0, fun _ => 0, fun _ => 0, 0, 0, 0, 0⟩

/-- Unconstrained 1-variable instance whose Hessian update performs the
plain rank-2 update (used to instantiate the C1 theorem). -/
def c1s : Sqp 1 0 :=
  { f := fun x => 1/2 * x 0 * x 0
    f_grad := some (fun x => x)
    cs := fun i => i.elim0
    c_grads := fun i => i.elim0
    tol := 1
    qpSolver := qpUnused 1 0 }

/-- State for the C1 instance: gradient cache sitting at `x0 = 0`,
Hessian `[[1]]`. -/
def c1st : SqpState 1 0 :=
  { rho := fun _ => 0
    H := Matrix.of fun _ _ => 1
    xc := some (fun _ => 0)
    fgrad := fun _ => 0
    jac := 0 }

/-- Concrete data for the C2 witness: `a = (2, -1)`. -/
def c2a : Vec 2 := fun i => if i = 0 then 2 else -1

/-- One-constraint instance for C3 whose objective and constraint are
constant: `f ≡ 0`, `c ≡ -1`, both with zero analytic gradients,
`tol = 1`. -/
def c3s : Sqp 1 1 :=
  { f := fun _ => 0
    f_grad := some (fun _ => fun _ => 0)
    cs := fun _ => fun _ => -1
    c_grads := fun _ => some (fun _ => fun _ => 0)
    tol := 1
    qpSolver := qpUnused 1 1 }

/-- Point `x = (-3)` at which the C3 counterexample evaluates the
convergence check. -/
def c3x : Vec 1 := fun _ => -3

/-- Multiplier `π = (0)` of the C3 counterexample. -/
def c3pi : Vec 1 := fun _ => 0

/-- Instance for C3's amended-claim witness: `f ≡ 0` but with constraint
`c(x) = x + 1` so that the convergence check passes at `x = 0`. -/
def c3sPass : Sqp 1 1 :=
  { f := fun _ => 0
    f_grad := some (fun _ => fun _ => 0)
    cs := fun _ => fun x => x 0 + 1
    c_grads := fun _ => some (fun _ => fun _ => 0)
    tol := 1
    qpSolver := qpUnused 1 1 }

/-- One-constraint instance for C4 driving the curvature-correction branch
with `sigma < 0`: constant objective gradient `-2`, constraint
`c(x) = x` with analytic gradient `1`. -/
def c4s : Sqp 1 1 :=
  { f := fun _ => 0
    f_grad := some (fun _ => fun _ => -2)
    cs := fun _ => fun x => x 0
    c_grads := fun _ => some (fun _ => fun _ => 1)
    tol := 1
    qpSolver := qpUnused 1 1 }

/-- State for the C4 instance: indefinite Hessian `[[-1]]`, gradient cache
at `x0 = 0` holding gradient `0` and Jacobian `0`. -/
def c4st : SqpState 1 1 :=
  { rho := fun _ => 0
    H := Matrix.of fun _ _ => -1
    xc := some (fun _ => 0)
    fgrad := fun _ => 0
    jac := 0 }

/-- Unconstrained instance with constant-zero objective: no line-search
trial can strictly decrease the merit function. -/
def c5sFlat : Sqp 1 0 :=
  { f := fun _ => 0
    f_grad := some (fun _ => fun _ => 0)
    cs := fun i => i.elim0
    c_grads := fun i => i.elim0
    tol := 1
    qpSolver := fun _ _ _ _ _ _ _ _ => ⟨fun _ => 0, fun i => i.elim0, fun i => i.elim0, 0, 0, 0, 0⟩ }

/-- Unconstrained linear instance where the very first line-search trial
(`α = 1`) already decreases the merit function. -/
def c5sLin : Sqp 1 0 :=
  { f := fun x => x 0
    f_grad := some (fun _ => fun _ => 1)
    cs := fun i => i.elim0
    c_grads := fun i => i.elim0
    tol := 1
    qpSolver := qpUnused 1 0 }

/-- One-constraint instance for C6 with `c(x) = x + 1` and constant unit
gradients. -/
def c6s : Sqp 1 1 :=
  { f := fun _ => 0
    f_grad := some (fun _ => fun _ => 1)
    cs := fun _ => fun x => x 0 + 1
    c_grads := fun _ => some (fun _ => fun _ => 1)
    tol := 1
    qpSolver := qpUnused 1 1 }

/-- Instance for C7 with no analytic gradients, so `_compute_gradients`
takes the finite-difference path on `f(x) = x²` with step `tol = 1/2`. -/
def c7s : Sqp 1 0 :=
  { f := fun x => x 0 * x 0
    f_grad := none
    cs := fun i => i.elim0
    c_grads := fun i => i.elim0
    tol := 1/2
    qpSolver := qpUnused 1 0 }

/-- Instance for C8 whose QP oracle reports residual `1`, far above the
minor tolerance `1/100`, so `_solve_qp`'s assertion fails. -/
def c8s : Sqp 1 0 :=
  { f := fun _ => 0
    f_grad := some (fun _ => fun _ => 0)
    cs := fun i => i.elim0
    c_grads := fun i => i.elim0
    tol := 1
    qpSolver := fun _ _ _ _ _ _ _ _ => ⟨fun _ => 0, fun i => i.elim0, fun i => i.elim0, 0, 1, 0, 0⟩ }

/-- Strongly convex unconstrained quadratic `f(x) = (3/2)x²` with analytic
gradient `3x` and an exact QP oracle for its single subproblem (identity
Hessian, `c = 2`, optimum `-2`), tolerance `1/100`. -/
def c9s : Sqp 1 0 :=
  { f := fun x => 3/2 * x 0 * x 0
    f_grad := some (fun x => fun _ => 3 * x 0)
    cs := fun i => i.elim0
    c_grads := fun i => i.elim0
    tol := 1/100
    qpSolver := fun _ _ _ _ _ _ _ _ => ⟨fun _ => -2, fun i => i.elim0, fun i => i.elim0, 0, 0, 0, 0⟩ }

/-- One-constraint instance for C10 whose single iteration triggers the
penalty update (`rho` becomes `5/2`) but not convergence. -/
def c10s : Sqp 1 1 :=
  { f := fun x => x 0
    f_grad := some (fun _ => fun _ => 1)
    cs := fun _ => fun x => x 0 + 1
    c_grads := fun _ => some (fun _ => fun _ => 1)
    tol := 1
    qpSolver := fun _ _ _ _ _ _ _ _ => ⟨fun _ => 1, fun _ => 2, fun _ => -2, 0, 0, 0, 0⟩ }

/-! ### General lemmas -/

theorem computeGradients_H (s : Sqp n m) (st : SqpState n m) (x : Vec n) :
    (computeGradients s st x).H = st.H := by
  unfold computeGradients
  split <;> rfl

theorem computeGradients_rho (s : Sqp n m) (st : SqpState n m) (x : Vec n) :
    (computeGradients s st x).rho = st.rho := by
  unfold computeGradients
  split <;> rfl

theorem computeGradients_hit (s : Sqp n m) (st : SqpState n m) (x : Vec n)
    (h : st.xc = some x) : computeGradients s st x = st := by
  unfold computeGradients
  exact if_pos h

theorem computeGradients_miss (s : Sqp n m) (st : SqpState n m) (x : Vec n)
    (h : ¬ st.xc = some x) :
    computeGradients s st x = { st with fgrad := gradAt s x, jac := jacAt s x, xc := some x } := by
  unfold computeGradients
  exact if_neg h

theorem computeGradients_eval (s : Sqp n m) (st : SqpState n m) (x : Vec n)
    (h : cacheWF s st x) :
    (computeGradients s st x).fgrad = gradAt s x ∧ (computeGradients s st x).jac = jacAt s x ∧
      (computeGradients s st x).xc = some x := by
  by_cases hx : st.xc = some x
  · rw [computeGradients_hit s st x hx]
    exact ⟨(h hx).1, (h hx).2, hx⟩
  · rw [computeGradients_miss s st x hx]
    exact ⟨rfl, rfl, rfl⟩

theorem pyMax_foldl_lt (c : ℚ) : ∀ (xs : List ℚ) (acc : ℚ),
    c < xs.foldl max acc ↔ c < acc ∨ ∃ x ∈ xs, c < x := by
  intro xs
  induction xs with
  | nil => intro acc; simp
  | cons y ys ih =>
    intro acc
    rw [List.foldl_cons, ih (max acc y)]
    simp only [lt_max_iff, List.mem_cons]
    constructor
    · rintro ((h | h) | ⟨x, hx, hc⟩)
      · exact Or.inl h
      · exact Or.inr ⟨y, Or.inl rfl, h⟩
      · exact Or.inr ⟨x, Or.inr hx, hc⟩
    · rintro (h | ⟨x, (rfl | hx), hc⟩)
      · exact Or.inl (Or.inl h)
      · exact Or.inl (Or.inr hc)
      · exact Or.inr ⟨x, hx, hc⟩

theorem vecMax_pos_iff (v : Vec k) : 0 < vecMax v ↔ ∃ i, 0 < v i := by
  unfold vecMax pyMax
  rcases h : List.ofFn v with _ | ⟨x, xs⟩
  · have : k = 0 := by
      have := congrArg List.length h
      simpa using this
    subst this
    simp
  · rw [pyMax_foldl_lt]
    have hmem : ∀ z : ℚ, z ∈ List.ofFn v ↔ ∃ i, v i = z := by
      intro z
      rw [List.mem_ofFn]
      exact Set.mem_range
    constructor
    · rintro (hx | ⟨z, hz, hc⟩)
      · obtain ⟨i, hi⟩ := (hmem x).mp (h ▸ List.mem_cons_self x xs)
        exact ⟨i, hi ▸ hx⟩
      · obtain ⟨i, hi⟩ := (hmem z).mp (h ▸ List.mem_cons_of_mem x hz)
        exact ⟨i, hi ▸ hc⟩
    · rintro ⟨i, hi⟩
      have : v i ∈ List.ofFn v := (List.mem_ofFn v (v i)).mpr ⟨i, rfl⟩
      rw [h, List.mem_cons] at this
      rcases this with h1 | h1
      · exact Or.inl (h1 ▸ hi)
      · exact Or.inr ⟨v i, h1, hi⟩

/-! ### Lemmas on the closed-form minimal-norm subproblem -/

theorem solvePosProblem_pointwise (a : Vec m) (b : ℚ) (hb : 0 < b) :
    ∀ i, solvePosProblem a b i =
      max 0 ((b / ∑ j, if 0 < a j then a j * a j else 0) * a i) := by
  intro i
  unfold solvePosProblem
  rw [if_neg (not_lt.mpr hb.le)]
  exact max_comm _ 0

theorem solvePosProblem_posNorm (a : Vec m) (ha : ∃ i, 0 < a i) :
    0 < ∑ j, if 0 < a j then a j * a j else 0 := by
  obtain ⟨i, hi⟩ := ha
  apply Finset.sum_pos'
  · intro j _
    by_cases hj : 0 < a j
    · rw [if_pos hj]; exact (mul_self_nonneg _)
    · rw [if_neg hj]
  · exact ⟨i, Finset.mem_univ i, by rw [if_pos hi]; exact mul_pos hi hi⟩

theorem solvePosProblem_ite (a : Vec m) (b : ℚ) (hb : 0 < b) (ha : ∃ i, 0 < a i) :
    ∀ i, solvePosProblem a b i =
      if 0 < a i then (b / ∑ j, if 0 < a j then a j * a j else 0) * a i else 0 := by
  intro i
  have hS := solvePosProblem_posNorm a ha
  rw [solvePosProblem_pointwise a b hb i]
  by_cases hi : 0 < a i
  · rw [if_pos hi]
    exact max_eq_right (le_of_lt (mul_pos (div_pos hb hS) hi))
  · rw [if_neg hi]
    exact max_eq_left (mul_nonpos_of_nonneg_of_nonpos (le_of_lt (div_pos hb hS))
      (not_lt.mp hi))

/-! ### Quadratic-form expansion lemmas for the rank-2 update -/

theorem quad_expand (v : Vec k) (M : Mat k k) :
    v ⬝ᵥ (M *ᵥ v) = ∑ i, ∑ j, v i * M i j * v j := by
  simp [Matrix.dotProduct, Matrix.mulVec, Finset.mul_sum, mul_assoc]

theorem rank1_div_quad (v u : Vec k) (c : ℚ) :
    (∑ i, ∑ j, v i * (u i * u j / c) * v j) = (u ⬝ᵥ v) ^ 2 / c := by
  have h1 : ∀ i : Fin k, (∑ j, v i * (u i * u j / c) * v j)
      = (u i * v i) * (∑ j, u j * v j) / c := by
    intro i
    rw [Finset.mul_sum, Finset.sum_div]
    apply Finset.sum_congr rfl
    intro j _
    ring
  rw [Finset.sum_congr rfl fun i _ => h1 i]
  rw [Matrix.dotProduct, sq, ← Finset.sum_div, ← Finset.sum_mul]

theorem bfgs_update_quadform (H : Mat k k) (y q : Vec k) (c d : ℚ) (v : Vec k) :
    v ⬝ᵥ ((Matrix.of fun i j => H i j + y i * y j / c + q i * q j / d) *ᵥ v)
      = v ⬝ᵥ (H *ᵥ v) + (y ⬝ᵥ v) ^ 2 / c + (q ⬝ᵥ v) ^ 2 / d := by
  rw [quad_expand, quad_expand]
  have expand : ∀ i : Fin k, (∑ j, v i * (Matrix.of
        (fun i j => H i j + y i * y j / c + q i * q j / d)) i j * v j)
      = (∑ j, v i * H i j * v j) + ((∑ j, v i * (y i * y j / c) * v j)
          + (∑ j, v i * (q i * q j / d) * v j)) := by
    intro i
    have hterm : ∀ j : Fin k, v i * (Matrix.of
          (fun i j => H i j + y i * y j / c + q i * q j / d)) i j * v j
        = v i * H i j * v j + (v i * (y i * y j / c) * v j + v i * (q i * q j / d) * v j) := by
      intro j
      simp only [Matrix.of_apply]
      ring
    rw [Finset.sum_congr rfl fun j _ => hterm j, Finset.sum_add_distrib,
      Finset.sum_add_distrib]
  rw [Finset.sum_congr rfl fun i _ => expand i, Finset.sum_add_distrib,
    Finset.sum_add_distrib, rank1_div_quad, rank1_div_quad]
  ring

theorem bfgs_update_symm (H : Mat k k) (y q : Vec k) (c d : ℚ) (h : symmQ H) :
    symmQ (Matrix.of fun i j => H i j + y i * y j / c + q i * q j / d) := by
  intro i j
  simp only [Matrix.of_apply, h i j]
  ring

theorem bfgs_update_posDef (H : Mat k k) (y delta : Vec k) (hH : posDefQ H)
    (hyd : 0 < y ⬝ᵥ delta) :
    posDefQ (Matrix.of fun i j => H i j + y i * y j / (y ⬝ᵥ delta)
      + (H *ᵥ delta) i * (H *ᵥ delta) j / ((H *ᵥ delta) ⬝ᵥ delta)) := by
  have hdelta : delta ≠ 0 := by
    rintro rfl
    rw [Matrix.dotProduct_zero] at hyd
    exact lt_irrefl 0 hyd
  have hq : 0 < (H *ᵥ delta) ⬝ᵥ delta := by
    rw [Matrix.dotProduct_comm]
    exact hH delta hdelta
  intro v hv
  rw [bfgs_update_quadform]
  have h1 := hH v hv
  have h2 : 0 ≤ (y ⬝ᵥ v) ^ 2 / (y ⬝ᵥ delta) := div_nonneg (sq_nonneg _) hyd.le
  have h3 : 0 ≤ ((H *ᵥ delta) ⬝ᵥ v) ^ 2 / ((H *ᵥ delta) ⬝ᵥ delta) :=
    div_nonneg (sq_nonneg _) hq.le
  linarith

/-! ### Lemmas on the Hessian update decision -/

theorem hessDecide_performed_yTdelta (y0 delta : Vec n) (sigma : ℚ) (deltaJ : Mat m n)
    (w : Vec m) :
    (hessDecide y0 delta sigma deltaJ w).yTdelta
      = (hessDecide y0 delta sigma deltaJ w).y ⬝ᵥ delta := by
  simp only [hessDecide]
  split
  · rfl
  · split
    · split
      · rfl
      · rfl
    · rfl

theorem hessDecide_corrected_performed (y0 delta : Vec n) (sigma : ℚ) (deltaJ : Mat m n)
    (w : Vec m) :
    (hessDecide y0 delta sigma deltaJ w).corrected = true →
      (hessDecide y0 delta sigma deltaJ w).performed = true := by
  simp only [hessDecide]
  split
  · intro _
    rfl
  · split
    · split
      · intro _
        rfl
      · intro h
        exact absurd h (by simp)
    · intro h
      exact absurd h (by simp)

theorem applyHessDecision_performed (st1 : SqpState n m) (delta : Vec n)
    (d : HessDecision n) (hp : d.performed = true) :
    applyHessDecision st1 delta d
      = ⟨{ st1 with
            H := Matrix.of fun i j =>
              st1.H i j + d.y i * d.y j / d.yTdelta
                + (st1.H *ᵥ delta) i * (st1.H *ᵥ delta) j / ((st1.H *ᵥ delta) ⬝ᵥ delta) },
          d.performed, d.corrected, d.y, d.yTdelta⟩ := by
  unfold applyHessDecision
  rw [if_pos hp]

theorem applyHessDecision_skipped (st1 : SqpState n m) (delta : Vec n)
    (d : HessDecision n) (hp : d.performed = false) :
    applyHessDecision st1 delta d = ⟨st1, d.performed, d.corrected, d.y, d.yTdelta⟩ := by
  unfold applyHessDecision
  rw [if_neg (by rw [hp]; exact Bool.false_ne_true)]

theorem applyHessDecision_fields (st1 : SqpState n m) (delta : Vec n)
    (d : HessDecision n) :
    (applyHessDecision st1 delta d).performed = d.performed
    ∧ (applyHessDecision st1 delta d).corrected = d.corrected
    ∧ (applyHessDecision st1 delta d).y = d.y
    ∧ (applyHessDecision st1 delta d).yTdelta = d.yTdelta := by
  unfold applyHessDecision
  split
  · exact ⟨rfl, rfl, rfl, rfl⟩
  · exact ⟨rfl, rfl, rfl, rfl⟩

theorem updateHessian_performed_shape (s : Sqp n m) (st : SqpState n m)
    (x0 x1 xhat : Vec n) (pi1 : Vec m) (alpha : ℚ)
    (hp : (updateHessianApproximation s st x0 x1 xhat pi1 alpha).performed = true) :
    (updateHessianApproximation s st x0 x1 xhat pi1 alpha).yTdelta
      = (updateHessianApproximation s st x0 x1 xhat pi1 alpha).y ⬝ᵥ (fun i => x1 i - x0 i)
    ∧ (updateHessianApproximation s st x0 x1 xhat pi1 alpha).st.H
      = (Matrix.of fun i j =>
          st.H i j
          + (updateHessianApproximation s st x0 x1 xhat pi1 alpha).y i
            * (updateHessianApproximation s st x0 x1 xhat pi1 alpha).y j
            / (updateHessianApproximation s st x0 x1 xhat pi1 alpha).yTdelta
          + (st.H *ᵥ fun l => x1 l - x0 l) i * (st.H *ᵥ fun l => x1 l - x0 l) j
            / ((st.H *ᵥ fun l => x1 l - x0 l) ⬝ᵥ fun l => x1 l - x0 l)) := by
  simp only [updateHessianApproximation] at hp ⊢
  rw [(applyHessDecision_fields _ _ _).1] at hp
  rw [applyHessDecision_performed _ _ _ hp]
  refine ⟨hessDecide_performed_yTdelta _ _ _ _ _, ?_⟩
  simp only [computeGradients_H]

/-! ### Claim C2 -/

/-- C2: for every vector `a` with at least one strictly positive entry and
every scalar `b > 0`, `_solve_identity_hessian_single_constraint_positive_problem`
returns the vector with components `ρ_i = max(0, (b/S)·a_i)` where `S` is
the sum of squares of the strictly positive entries of `a`; this `ρ`
satisfies `a'ρ = b`, is componentwise nonnegative, and has minimal
Euclidean norm (stated via squared norms, which is equivalent) among all
`ρ ≥ 0` with `a'ρ = b`. -/
theorem c2_solvePos_minimal_norm (a : Vec m) (b : ℚ) (hb : 0 < b) (ha : ∃ i, 0 < a i) :
    (∀ i, solvePosProblem a b i
        = max 0 ((b / ∑ j, if 0 < a j then a j * a j else 0) * a i))
    ∧ a ⬝ᵥ solvePosProblem a b = b
    ∧ (∀ i, 0 ≤ solvePosProblem a b i)
    ∧ (∀ z : Vec m, (∀ i, 0 ≤ z i) → a ⬝ᵥ z = b →
        ∑ i, solvePosProblem a b i ^ 2 ≤ ∑ i, z i ^ 2) := by
  have hS : 0 < ∑ j, if 0 < a j then a j * a j else 0 := solvePosProblem_posNorm a ha
  have hpt := solvePosProblem_ite a b hb ha
  refine ⟨solvePosProblem_pointwise a b hb, ?_, ?_, ?_⟩
  · rw [Matrix.dotProduct]
    have h1 : ∀ i, a i * solvePosProblem a b i
        = if 0 < a i then (b / ∑ j, if 0 < a j then a j * a j else 0) * (a i * a i) else 0 := by
      intro i
      rw [hpt i]
      by_cases hi : 0 < a i
      · rw [if_pos hi, if_pos hi]
        ring
      · rw [if_neg hi, if_neg hi, mul_zero]
    rw [Finset.sum_congr rfl fun i _ => h1 i]
    have h2 : (∑ i, if 0 < a i
          then (b / ∑ j, if 0 < a j then a j * a j else 0) * (a i * a i) else 0)
        = (b / ∑ j, if 0 < a j then a j * a j else 0) * ∑ j, if 0 < a j then a j * a j else 0 := by
      rw [Finset.mul_sum]
      apply Finset.sum_congr rfl
      intro i _
      by_cases hi : 0 < a i
      · rw [if_pos hi, if_pos hi]
      · rw [if_neg hi, if_neg hi, mul_zero]
    rw [h2]
    exact div_mul_cancel₀ b (ne_of_gt hS)
  · intro i
    rw [solvePosProblem_pointwise a b hb i]
    exact le_max_left 0 _
  · intro z hz hzb
    have hT : b ≤ ∑ i, if 0 < a i then a i * z i else 0 := by
      rw [← hzb, Matrix.dotProduct]
      apply Finset.sum_le_sum
      intro i _
      by_cases hi : 0 < a i
      · rw [if_pos hi]
      · rw [if_neg hi]
        exact mul_nonpos_of_nonpos_of_nonneg (not_lt.mp hi) (hz i)
    have hcs : (∑ i, if 0 < a i then a i * z i else 0) ^ 2
        ≤ (∑ j, if 0 < a j then a j * a j else 0) * ∑ i, if 0 < a i then z i ^ 2 else 0 := by
      have h := Finset.sum_mul_sq_le_sq_mul_sq Finset.univ
        (fun i => if 0 < a i then a i else 0) (fun i => if 0 < a i then z i else 0)
      have e1 : ∀ i : Fin m, (if 0 < a i then a i else 0) * (if 0 < a i then z i else 0)
          = if 0 < a i then a i * z i else 0 := by
        intro i
        by_cases hi : 0 < a i <;> simp [hi]
      have e2 : ∀ i : Fin m, (if 0 < a i then a i else 0) ^ 2
          = if 0 < a i then a i * a i else 0 := by
        intro i
        by_cases hi : 0 < a i <;> simp [hi, pow_two]
      have e3 : ∀ i : Fin m, (if 0 < a i then z i else 0) ^ 2
          = if 0 < a i then z i ^ 2 else 0 := by
        intro i
        by_cases hi : 0 < a i <;> simp [hi]
      rw [Finset.sum_congr rfl fun i _ => e1 i, Finset.sum_congr rfl fun i _ => e2 i,
        Finset.sum_congr rfl fun i _ => e3 i] at h
      exact h
    have hz2 : (∑ i, if 0 < a i then z i ^ 2 else 0) ≤ ∑ i, z i ^ 2 := by
      apply Finset.sum_le_sum
      intro i _
      by_cases hi : 0 < a i
      · rw [if_pos hi]
      · rw [if_neg hi]
        exact sq_nonneg _
    have hrho2 : (∑ i, solvePosProblem a b i ^ 2)
        = b ^ 2 / ∑ j, if 0 < a j then a j * a j else 0 := by
      have h1 : ∀ i, solvePosProblem a b i ^ 2
          = if 0 < a i
            then (b / ∑ j, if 0 < a j then a j * a j else 0) ^ 2 * (a i * a i) else 0 := by
        intro i
        rw [hpt i]
        by_cases hi : 0 < a i
        · rw [if_pos hi, if_pos hi]
          ring
        · rw [if_neg hi, if_neg hi]
          exact zero_pow (by norm_num)
      rw [Finset.sum_congr rfl fun i _ => h1 i]
      have h2 : (∑ i, if 0 < a i
            then (b / ∑ j, if 0 < a j then a j * a j else 0) ^ 2 * (a i * a i) else 0)
          = (b / ∑ j, if 0 < a j then a j * a j else 0) ^ 2
              * ∑ j, if 0 < a j then a j * a j else 0 := by
        rw [Finset.mul_sum]
        apply Finset.sum_congr rfl
        intro i _
        by_cases hi : 0 < a i
        · rw [if_pos hi, if_pos hi]
        · rw [if_neg hi, if_neg hi, mul_zero]
      rw [h2, div_pow, pow_two ((∑ j, if 0 < a j then a j * a j else 0)),
        ← div_div, div_mul_cancel₀ _ (ne_of_gt hS)]
    rw [hrho2, div_le_iff₀ hS]
    calc b ^ 2 ≤ (∑ i, if 0 < a i then a i * z i else 0) ^ 2 :=
          pow_le_pow_left₀ hb.le hT 2
      _ ≤ (∑ j, if 0 < a j then a j * a j else 0) * ∑ i, if 0 < a i then z i ^ 2 else 0 := hcs
      _ ≤ (∑ j, if 0 < a j then a j * a j else 0) * ∑ i, z i ^ 2 :=
          mul_le_mul_of_nonneg_left hz2 hS.le
      _ = (∑ i, z i ^ 2) * ∑ j, if 0 < a j then a j * a j else 0 := mul_comm _ _

/-- C2 witness: the theorem instantiated at `a = (2, -1)`, `b = 3`, with
both hypotheses discharged concretely. -/
theorem c2_witness :
    ((0:ℚ) < 3 ∧ ∃ i, 0 < c2a i)
    ∧ ((∀ i, solvePosProblem c2a 3 i
          = max 0 ((3 / ∑ j, if 0 < c2a j then c2a j * c2a j else 0) * c2a i))
      ∧ c2a ⬝ᵥ solvePosProblem c2a 3 = 3
      ∧ (∀ i, 0 ≤ solvePosProblem c2a 3 i)
      ∧ (∀ z : Vec 2, (∀ i, 0 ≤ z i) → c2a ⬝ᵥ z = 3 →
          ∑ i, solvePosProblem c2a 3 i ^ 2 ≤ ∑ i, z i ^ 2)) := by
  have hb : (0:ℚ) < 3 := by norm_num
  have ha : ∃ i, 0 < c2a i := ⟨0, by norm_num [c2a]⟩
  exact ⟨⟨hb, ha⟩, c2_solvePos_minimal_norm c2a 3 hb ha⟩

/-! ### Claim C1 -/

/-- C1: whenever `_update_hessian_approximation` performs an update,
`q = H·delta` is formed and `H` is replaced by
`H + y·y'/(y'delta) + q·q'/(q'delta)`; every accepted update keeps `H`
symmetric, and whenever `y'delta > 0` held at update time the updated `H`
is positive definite (both as preservation from the pre-update `H`). -/
theorem c1_hessian_update_rank2 (s : Sqp n m) (st : SqpState n m)
    (x0 x1 xhat : Vec n) (pi1 : Vec m) (alpha : ℚ)
    (hp : (updateHessianApproximation s st x0 x1 xhat pi1 alpha).performed = true) :
    (updateHessianApproximation s st x0 x1 xhat pi1 alpha).st.H
      = (Matrix.of fun i j =>
          st.H i j
          + (updateHessianApproximation s st x0 x1 xhat pi1 alpha).y i
            * (updateHessianApproximation s st x0 x1 xhat pi1 alpha).y j
            / (updateHessianApproximation s st x0 x1 xhat pi1 alpha).yTdelta
          + (st.H *ᵥ fun l => x1 l - x0 l) i * (st.H *ᵥ fun l => x1 l - x0 l) j
            / ((st.H *ᵥ fun l => x1 l - x0 l) ⬝ᵥ fun l => x1 l - x0 l))
    ∧ (symmQ st.H → symmQ (updateHessianApproximation s st x0 x1 xhat pi1 alpha).st.H)
    ∧ (posDefQ st.H → 0 < (updateHessianApproximation s st x0 x1 xhat pi1 alpha).yTdelta →
        posDefQ (updateHessianApproximation s st x0 x1 xhat pi1 alpha).st.H) := by
  obtain ⟨hyt, hshape⟩ := updateHessian_performed_shape s st x0 x1 xhat pi1 alpha hp
  refine ⟨hshape, ?_, ?_⟩
  · intro hsym
    rw [hshape]
    exact bfgs_update_symm _ _ _ _ _ hsym
  · intro hpd hyd
    rw [hyt] at hshape hyd
    rw [hshape]
    exact bfgs_update_posDef st.H _ _ hpd hyd

/-- C1 witness: on the concrete unconstrained instance `c1s`/`c1st` the
update is performed with `y'delta = 1 > 0` from the symmetric positive
definite `H = [[1]]`, so the updated matrix is symmetric and positive
definite. -/
theorem c1_witness :
    symmQ ((updateHessianApproximation c1s c1st (fun _ => 0) (fun _ => 1) (fun _ => 1)
        (fun i => i.elim0) 1).st.H)
    ∧ posDefQ ((updateHessianApproximation c1s c1st (fun _ => 0) (fun _ => 1) (fun _ => 1)
        (fun i => i.elim0) 1).st.H) := by
  have hmiss : ¬ c1st.xc = some (fun _ => (1:ℚ)) := by
    simp only [c1st, Option.some.injEq]
    intro h
    have := congrFun h 0
    norm_num at this
  have hcg := computeGradients_miss c1s c1st (fun _ => (1:ℚ)) hmiss
  have hp : (updateHessianApproximation c1s c1st (fun _ => 0) (fun _ => 1) (fun _ => 1)
      (fun i => i.elim0) 1).performed = true := by
    simp only [updateHessianApproximation, hcg]
    norm_num [applyHessDecision, hessDecide, gradAt, jacAt, c1s, c1st, sqpEta,
      Matrix.dotProduct, Matrix.mulVec, Matrix.transpose, Fin.sum_univ_one,
      Matrix.of_apply, Finset.univ_eq_empty, Finset.sum_empty]
  have hyd : (0:ℚ) < (updateHessianApproximation c1s c1st (fun _ => 0) (fun _ => 1) (fun _ => 1)
      (fun i => i.elim0) 1).yTdelta := by
    simp only [updateHessianApproximation, hcg]
    norm_num [applyHessDecision, hessDecide, gradAt, jacAt, c1s, c1st, sqpEta,
      Matrix.dotProduct, Matrix.mulVec, Matrix.transpose, Fin.sum_univ_one,
      Matrix.of_apply, Finset.univ_eq_empty, Finset.sum_empty]
  have hsym : symmQ c1st.H := by
    intro i j
    rw [Fin.eq_zero i, Fin.eq_zero j]
  have hpd : posDefQ c1st.H := by
    intro v hv
    have hv0 : v 0 ≠ 0 := by
      intro h0
      apply hv
      funext i
      rw [Fin.eq_zero i]
      simpa using h0
    have hval : v ⬝ᵥ (c1st.H *ᵥ v) = v 0 * v 0 := by
      simp [c1st, Matrix.mulVec, Matrix.dotProduct, Fin.sum_univ_one, Matrix.of_apply]
    rw [hval]
    exact mul_self_pos.mpr hv0
  have h := c1_hessian_update_rank2 c1s c1st (fun _ => 0) (fun _ => 1) (fun _ => 1)
    (fun i => i.elim0) 1 hp
  exact ⟨h.2.1 hsym, h.2.2 hpd hyd⟩

/-! ### Claim C4 -/

/-- C4 counterexample: on the concrete instance `c4s`/`c4st` (indefinite
`H = [[-1]]` makes `sigma = -1/2` negative) the curvature-correction
branch runs, `‖ω‖² = 9/4 < 10⁶`, the corrected `y` is installed — and the
update is performed even though the corrected `y'delta = -1/2` is
negative, so no retest of `y'delta ≥ 0` takes place, contrary to the
claim. -/
theorem c4_counterexample :
    (updateHessianApproximation c4s c4st (fun _ => 0) (fun _ => 1) (fun _ => 1)
        (fun _ => 0) 1).corrected = true
    ∧ (updateHessianApproximation c4s c4st (fun _ => 0) (fun _ => 1) (fun _ => 1)
        (fun _ => 0) 1).performed = true
    ∧ (updateHessianApproximation c4s c4st (fun _ => 0) (fun _ => 1) (fun _ => 1)
        (fun _ => 0) 1).yTdelta < 0 := by
  have hmiss : ¬ c4st.xc = some (fun _ => (1:ℚ)) := by
    simp only [c4st, Option.some.injEq]
    intro h
    have := congrFun h 0
    norm_num at this
  have hcg := computeGradients_miss c4s c4st (fun _ => (1:ℚ)) hmiss
  refine ⟨?_, ?_, ?_⟩ <;>
    · simp only [updateHessianApproximation, hcg]
      norm_num [applyHessDecision, hessDecide, gradAt, jacAt, jacRowAt, c4s, c4st,
        sqpEta, evaluateConstraints, vecMax, vecMin, pyMax, pyMin, solvePosProblem,
        Matrix.dotProduct, Matrix.mulVec, Matrix.transpose, Fin.sum_univ_one,
        Matrix.of_apply, Matrix.sub_apply, List.ofFn_succ, Matrix.zero_apply]

/-- C4 (amended): in the curvature-correction branch, after `ω` is computed
and (only when `‖ω‖² < 10⁶`) the correction `y ← y + deltaJ'·(ω ⊙ w)` is
applied, `y'delta` is recomputed with the corrected `y` and the rank-2
update is then performed unconditionally with the corrected `y` — the
code sets `perform_update = True` without retesting `y'delta ≥ 0`. -/
theorem c4_correction_updates_unconditionally (s : Sqp n m) (st : SqpState n m)
    (x0 x1 xhat : Vec n) (pi1 : Vec m) (alpha : ℚ)
    (hc : (updateHessianApproximation s st x0 x1 xhat pi1 alpha).corrected = true) :
    (updateHessianApproximation s st x0 x1 xhat pi1 alpha).performed = true
    ∧ (updateHessianApproximation s st x0 x1 xhat pi1 alpha).yTdelta
        = (updateHessianApproximation s st x0 x1 xhat pi1 alpha).y
            ⬝ᵥ (fun i => x1 i - x0 i) := by
  simp only [updateHessianApproximation] at hc ⊢
  rw [(applyHessDecision_fields _ _ _).2.1] at hc
  have hp := hessDecide_corrected_performed _ _ _ _ _ hc
  constructor
  · rw [(applyHessDecision_fields _ _ _).1]
    exact hp
  · rw [(applyHessDecision_fields _ _ _).2.2.2, (applyHessDecision_fields _ _ _).2.2.1]
    exact hessDecide_performed_yTdelta _ _ _ _ _

/-- C4 witness: the amended theorem applied to the concrete corrected
update of `c4s`/`c4st`. -/
theorem c4_witness :
    (updateHessianApproximation c4s c4st (fun _ => 0) (fun _ => 1) (fun _ => 1)
        (fun _ => 0) 1).performed = true := by
  have hmiss : ¬ c4st.xc = some (fun _ => (1:ℚ)) := by
    simp only [c4st, Option.some.injEq]
    intro h
    have := congrFun h 0
    norm_num at this
  have hcg := computeGradients_miss c4s c4st (fun _ => (1:ℚ)) hmiss
  have hc : (updateHessianApproximation c4s c4st (fun _ => 0) (fun _ => 1) (fun _ => 1)
      (fun _ => 0) 1).corrected = true := by
    simp only [updateHessianApproximation, hcg]
    norm_num [applyHessDecision, hessDecide, gradAt, jacAt, jacRowAt, c4s, c4st,
      sqpEta, evaluateConstraints, vecMax, vecMin, pyMax, pyMin, solvePosProblem,
      Matrix.dotProduct, Matrix.mulVec, Matrix.transpose, Fin.sum_univ_one,
      Matrix.of_apply, Matrix.sub_apply, List.ofFn_succ, Matrix.zero_apply]
  exact (c4_correction_updates_unconditionally c4s c4st (fun _ => 0) (fun _ => 1)
    (fun _ => 1) (fun _ => 0) 1 hc).1

/-! ### Claim C6 -/

/-- C6: `_update_rho` computes `a_j = (c_j(x_k) - s_{k,j})²` and the scalar
`b` (from the cached gradient, the step direction, the Hessian quadratic
form and the multiplier change); it replaces `ρ` wholesale by the
closed-form minimal-norm solution exactly when `b > 0` and some
`a_j > 0`, and otherwise leaves `ρ` unchanged. -/
theorem c6_update_rho_iff (s : Sqp n m) (st : SqpState n m) (xk : Vec n) (sk pik : Vec m)
    (xhat : Vec n) (pihat : Vec m) :
    ((0 < rhoRhs s (computeGradients s st xk) xk sk pik xhat pihat
        ∧ (∃ j, 0 < rhoA s xk sk j)) →
      (updateRho s st xk sk pik xhat pihat).rho
        = solvePosProblem (rhoA s xk sk)
            (rhoRhs s (computeGradients s st xk) xk sk pik xhat pihat))
    ∧ (¬(0 < rhoRhs s (computeGradients s st xk) xk sk pik xhat pihat
        ∧ (∃ j, 0 < rhoA s xk sk j)) →
      (updateRho s st xk sk pik xhat pihat).rho = st.rho) := by
  constructor
  · rintro ⟨h1, h2⟩
    simp only [updateRho]
    rw [if_pos ⟨h1, (vecMax_pos_iff _).mpr h2⟩]
  · intro h
    simp only [updateRho]
    rw [if_neg fun hcond => h ⟨hcond.1, (vecMax_pos_iff _).mp hcond.2⟩]
    exact computeGradients_rho s st xk

/-- C6 witness: on `c6s` from `x_k = 0` with step to `x̂ = 1` the update
condition holds and `ρ` is replaced by the closed-form solution; with the
null step `x̂ = 0` the condition fails and `ρ` is left unchanged. -/
theorem c6_witness :
    ((updateRho c6s (initState 1 1) (fun _ => 0) (fun _ => 0) (fun _ => 0)
        (fun _ => 1) (fun _ => 0)).rho
      = solvePosProblem (rhoA c6s (fun _ => 0) (fun _ => 0))
          (rhoRhs c6s (computeGradients c6s (initState 1 1) (fun _ => 0)) (fun _ => 0)
            (fun _ => 0) (fun _ => 0) (fun _ => 1) (fun _ => 0)))
    ∧ (updateRho c6s (initState 1 1) (fun _ => 0) (fun _ => 0) (fun _ => 0)
        (fun _ => 0) (fun _ => 0)).rho = (initState 1 1).rho := by
  have hcg := computeGradients_miss c6s (initState 1 1) (fun _ => (0:ℚ))
    (by simp [initState])
  constructor
  · refine (c6_update_rho_iff c6s (initState 1 1) (fun _ => 0) (fun _ => 0) (fun _ => 0)
      (fun _ => 1) (fun _ => 0)).1 ⟨?_, ⟨0, ?_⟩⟩
    · rw [hcg]
      norm_num [rhoRhs, gradAt, c6s, initState, evaluateConstraints,
        Matrix.dotProduct, Matrix.mulVec, Fin.sum_univ_one, Matrix.zero_apply]
    · norm_num [rhoA, c6s, evaluateConstraints]
  · refine (c6_update_rho_iff c6s (initState 1 1) (fun _ => 0) (fun _ => 0) (fun _ => 0)
      (fun _ => 0) (fun _ => 0)).2 ?_
    rw [hcg]
    norm_num [rhoRhs, gradAt, c6s, initState, evaluateConstraints,
      Matrix.dotProduct, Matrix.mulVec, Fin.sum_univ_one, Matrix.zero_apply]

/-! ### Claim C7 -/

theorem update_add_shift (x : Vec n) (i : Fin n) (t : ℚ) :
    Function.update x i (x i + t) = fun j => x j + if j = i then t else 0 := by
  funext j
  rw [Function.update_apply]
  by_cases h : j = i
  · subst h
    simp
  · simp [h]

theorem update_sub_shift (x : Vec n) (i : Fin n) (t : ℚ) :
    Function.update x i (x i - t) = fun j => x j - if j = i then t else 0 := by
  funext j
  rw [Function.update_apply]
  by_cases h : j = i
  · subst h
    simp
  · simp [h]

/-- C7: `_compute_gradients(x)` is a no-op (the state is returned
untouched) when `x` equals the cached point, and otherwise recomputes and
stores `∇f(x)`, `J(x)` and `x` — using the supplied analytic gradient when
present and otherwise the central finite difference
`(f(x + h·e_i) - f(x - h·e_i)) / 2h` with step `h = tol`, the same scheme
per constraint row. -/
theorem c7_compute_gradients_spec (s : Sqp n m) (st : SqpState n m) (x : Vec n) :
    (st.xc = some x → computeGradients s st x = st)
    ∧ (¬ st.xc = some x →
        computeGradients s st x
          = { st with fgrad := gradAt s x, jac := jacAt s x, xc := some x })
    ∧ (s.f_grad = none → gradAt s x = fun i =>
        (s.f (fun j => x j + if j = i then s.tol else 0)
          - s.f (fun j => x j - if j = i then s.tol else 0)) / (2 * s.tol))
    ∧ (∀ g, s.f_grad = some g → gradAt s x = g x)
    ∧ (∀ i, s.c_grads i = none → (fun j => jacAt s x i j) = fun j =>
        (s.cs i (fun l => x l + if l = j then s.tol else 0)
          - s.cs i (fun l => x l - if l = j then s.tol else 0)) / (2 * s.tol))
    ∧ (∀ i g, s.c_grads i = some g → (fun j => jacAt s x i j) = g x) := by
  refine ⟨computeGradients_hit s st x, computeGradients_miss s st x, ?_, ?_, ?_, ?_⟩
  · intro h
    funext i
    simp only [gradAt, h, finiteDifferenceGrad]
    rw [update_add_shift, update_sub_shift]
  · intro g h
    simp only [gradAt, h]
  · intro i h
    funext j
    simp only [jacAt, Matrix.of_apply, jacRowAt, h, finiteDifferenceGrad]
    rw [update_add_shift, update_sub_shift]
  · intro i g h
    funext j
    simp only [jacAt, Matrix.of_apply, jacRowAt, h]

/-- C7 witness: on `c7s` (no analytic gradients, `f(x) = x²`, `tol = 1/2`)
the cache-hit call is the identity, the cache-miss call stores the
recomputed data, and the gradient used is the central finite
difference. -/
theorem c7_witness :
    (computeGradients c7s { initState 1 0 with xc := some (fun _ => 1) } (fun _ => 1)
        = { initState 1 0 with xc := some (fun _ => 1) })
    ∧ (computeGradients c7s (initState 1 0) (fun _ => 1)
        = { initState 1 0 with
              fgrad := gradAt c7s (fun _ => 1)
              jac := jacAt c7s (fun _ => 1)
              xc := some (fun _ => 1) })
    ∧ (gradAt c7s (fun _ => 1) = fun i =>
        (c7s.f (fun j => (fun _ => (1:ℚ)) j + if j = i then c7s.tol else 0)
          - c7s.f (fun j => (fun _ => (1:ℚ)) j - if j = i then c7s.tol else 0))
            / (2 * c7s.tol)) := by
  refine ⟨?_, ?_, ?_⟩
  · exact (c7_compute_gradients_spec c7s { initState 1 0 with xc := some (fun _ => 1) }
      (fun _ => 1)).1 rfl
  · exact (c7_compute_gradients_spec c7s (initState 1 0) (fun _ => 1)).2.1
      (by simp [initState])
  · exact (c7_compute_gradients_spec c7s (initState 1 0) (fun _ => 1)).2.2.1 rfl

/-! ### Claim C8 -/

/-- C8: `_solve_qp` hands the external subsolver the canonical QP — when
the cache sits at `x_k`, objective matrix `H`, objective vector
`c = ∇f_k - H·x_k`, empty equality constraints, inequality matrix `J_k`
and right-hand side `J_k·x_k - c(x_k)`, with the minor tolerance
`tol/100` and an iteration budget of 100 — and a returned residual or
duality gap not strictly below the minor tolerance is the fatal
`QPSubproblemFailure`, which the solve loop propagates immediately. -/
theorem c8_solve_qp_spec (s : Sqp n m) (st : SqpState n m) (xk : Vec n) :
    (st.xc = some xk → cacheWF s st xk →
      qpCallArgs s st xk
        = (st.H, fun j => gradAt s xk j - (st.H *ᵥ xk) j, [], [],
            jacAt s xk, fun i => (jacAt s xk *ᵥ xk) i - evaluateConstraints s xk i,
            s.tol / 100, 100))
    ∧ ((solveQp s st xk).1 = Except.error SqpError.qpSubproblemFailure ↔
        (s.minorTol ≤ (s.qpSolver (qpCallArgs s st xk).1 (qpCallArgs s st xk).2.1
            (qpCallArgs s st xk).2.2.1 (qpCallArgs s st xk).2.2.2.1
            (qpCallArgs s st xk).2.2.2.2.1 (qpCallArgs s st xk).2.2.2.2.2.1
            (qpCallArgs s st xk).2.2.2.2.2.2.1 (qpCallArgs s st xk).2.2.2.2.2.2.2).res
          ∨ s.minorTol ≤ (s.qpSolver (qpCallArgs s st xk).1 (qpCallArgs s st xk).2.1
            (qpCallArgs s st xk).2.2.1 (qpCallArgs s st xk).2.2.2.1
            (qpCallArgs s st xk).2.2.2.2.1 (qpCallArgs s st xk).2.2.2.2.2.1
            (qpCallArgs s st xk).2.2.2.2.2.2.1 (qpCallArgs s st xk).2.2.2.2.2.2.2).gap))
    ∧ (∀ (k : ℕ) (sk pik : Vec m) (e : SqpError),
        (solveQp s (computeGradients s st xk) xk).1 = Except.error e →
        (solveLoop s (k+1) st xk sk pik).1 = Except.error e) := by
  refine ⟨?_, ?_, ?_⟩
  · intro hx hwf
    obtain ⟨hf, hj⟩ := hwf hx
    simp only [qpCallArgs, computeGradients_hit s st xk hx, hf, hj]
    rfl
  · simp only [solveQp]
    by_cases hres : (s.qpSolver (qpCallArgs s st xk).1 (qpCallArgs s st xk).2.1
        (qpCallArgs s st xk).2.2.1 (qpCallArgs s st xk).2.2.2.1
        (qpCallArgs s st xk).2.2.2.2.1 (qpCallArgs s st xk).2.2.2.2.2.1
        (qpCallArgs s st xk).2.2.2.2.2.2.1 (qpCallArgs s st xk).2.2.2.2.2.2.2).res
        < s.minorTol
    · rw [if_pos hres]
      by_cases hgap : (s.qpSolver (qpCallArgs s st xk).1 (qpCallArgs s st xk).2.1
          (qpCallArgs s st xk).2.2.1 (qpCallArgs s st xk).2.2.2.1
          (qpCallArgs s st xk).2.2.2.2.1 (qpCallArgs s st xk).2.2.2.2.2.1
          (qpCallArgs s st xk).2.2.2.2.2.2.1 (qpCallArgs s st xk).2.2.2.2.2.2.2).gap
          < s.minorTol
      · rw [if_pos hgap]
        simp [not_le.mpr hres, not_le.mpr hgap]
      · rw [if_neg hgap]
        simp [not_lt.mp hgap]
    · rw [if_neg hres]
      simp [not_lt.mp hres]
  · intro k sk pik e h
    simp only [solveLoop]
    rcases hsq : solveQp s (computeGradients s st xk) xk with ⟨res, st2⟩
    rw [hsq] at h
    simp only at h
    rw [h]

/-- C8 witness: on `c8s`, whose oracle reports residual 1 ≥ 1/100, the
canonical arguments are as specified and the assertion failure aborts the
solve loop with `QPSubproblemFailure`. -/
theorem c8_witness :
    (qpCallArgs c8s (computeGradients c8s (initState 1 0) (fun _ => 0)) (fun _ => 0)
      = ((computeGradients c8s (initState 1 0) (fun _ => 0)).H,
          fun j => gradAt c8s (fun _ => 0) j
            - ((computeGradients c8s (initState 1 0) (fun _ => 0)).H *ᵥ fun _ => 0) j,
          [], [], jacAt c8s (fun _ => 0),
          fun i => (jacAt c8s (fun _ => 0) *ᵥ fun _ => 0) i
            - evaluateConstraints c8s (fun _ => 0) i,
          c8s.tol / 100, 100))
    ∧ (solveLoop c8s 1 (initState 1 0) (fun _ => 0) (fun i => i.elim0) (fun i => i.elim0)).1
        = Except.error SqpError.qpSubproblemFailure := by
  have hmiss : ¬ (initState 1 0).xc = some (fun _ => (0:ℚ)) := by
    simp [initState]
  have hcg := computeGradients_miss c8s (initState 1 0) (fun _ => (0:ℚ)) hmiss
  have hx : (computeGradients c8s (initState 1 0) (fun _ => 0)).xc
      = some (fun _ => (0:ℚ)) := by
    rw [hcg]
  have hwf : cacheWF c8s (computeGradients c8s (initState 1 0) (fun _ => 0))
      (fun _ => 0) := by
    intro _
    rw [hcg]
    exact ⟨rfl, rfl⟩
  constructor
  · exact (c8_solve_qp_spec c8s (computeGradients c8s (initState 1 0) (fun _ => 0))
      (fun _ => 0)).1 hx hwf
  · refine (c8_solve_qp_spec c8s (initState 1 0) (fun _ => 0)).2.2 0
      (fun i => i.elim0) (fun i => i.elim0) SqpError.qpSubproblemFailure ?_
    refine ((c8_solve_qp_spec c8s (computeGradients c8s (initState 1 0) (fun _ => 0))
      (fun _ => 0)).2.1).mpr ?_
    left
    norm_num [c8s, Sqp.minorTol]

/-! ### Claim C3 -/

theorem ccLoop_true_iff (s : Sqp n m) (x : Vec n) (pi : Vec m) (tx tp : ℚ) :
    ∀ (l : List (Fin m)) (st : SqpState n m), cacheWF s st x →
      ((ccLoop s x pi tx tp l st).1 = true ↔
        ∀ i ∈ l, ¬ (s.cs i x < -tx) ∧ ¬ (tp < s.cs i x * pi i)
          ∧ ¬ (∃ j, tp < |gradAt s x j - ((jacAt s x)ᵀ *ᵥ pi) j|)) := by
  intro l
  induction l with
  | nil =>
    intro st _
    simp [ccLoop]
  | cons i rest ih =>
    intro st hwf
    obtain ⟨hf, hj, hxc⟩ := computeGradients_eval s st x hwf
    have hwf1 : cacheWF s (computeGradients s st x) x := fun _ => ⟨hf, hj⟩
    simp only [ccLoop]
    by_cases h1 : s.cs i x < -tx
    · rw [if_pos h1]
      simp only [List.mem_cons]
      constructor
      · intro hfalse
        exact absurd hfalse (by simp)
      · intro hall
        exact absurd h1 ((hall i (Or.inl rfl)).1)
    · rw [if_neg h1]
      by_cases h2 : tp < s.cs i x * pi i
      · rw [if_pos h2]
        simp only [List.mem_cons]
        constructor
        · intro hfalse
          exact absurd hfalse (by simp)
        · intro hall
          exact absurd h2 ((hall i (Or.inl rfl)).2.1)
      · rw [if_neg h2]
        rw [hf, hj]
        by_cases h3 : ∃ j, tp < |gradAt s x j - ((jacAt s x)ᵀ *ᵥ pi) j|
        · rw [if_pos h3]
          simp only [List.mem_cons]
          constructor
          · intro hfalse
            exact absurd hfalse (by simp)
          · intro hall
            exact absurd h3 ((hall i (Or.inl rfl)).2.2)
        · rw [if_neg h3]
          rw [ih (computeGradients s st x) hwf1]
          simp only [List.mem_cons]
          constructor
          · intro hrest
            rintro i' (rfl | hi')
            · exact ⟨h1, h2, h3⟩
            · exact hrest i' hi'
          · intro hall i' hi'
            exact hall i' (Or.inr hi')

/-- C3 counterexample: with `tol = 1`, the constant constraint `c ≡ -1`
(zero gradients everywhere) and the point `x = (-3)`, `π = (0)`, the code
computes `τ_x = tol·(1 + max(x)) = -2` — no absolute values — so the
primal test `c(x) < -τ_x` fires and `_check_convergence` returns false,
although all four checks of the claim, with its tolerances
`τ_x = tol·(1+max|x|) = 4` and `τ_π = tol·(1+max|π|) = 1`, pass. -/
theorem c3_counterexample :
    (checkConvergence c3s (initState 1 1) c3x c3pi).1 = false
    ∧ ¬ (c3pi 0 < -(c3s.tol * (1 + |c3pi 0|)))
    ∧ ¬ (c3s.cs 0 c3x < -(c3s.tol * (1 + |c3x 0|)))
    ∧ ¬ (c3s.tol * (1 + |c3pi 0|) < c3s.cs 0 c3x * c3pi 0)
    ∧ (∀ j, |gradAt c3s c3x j - ((jacAt c3s c3x)ᵀ *ᵥ c3pi) j|
        ≤ c3s.tol * (1 + |c3pi 0|)) := by
  refine ⟨?_, ?_, ?_, ?_, ?_⟩
  · norm_num [checkConvergence, ccLoop, c3s, c3x, c3pi, initState, vecMax, pyMax,
      List.ofFn_succ, List.finRange_succ, List.finRange_zero, evaluateConstraints,
      Fin.exists_fin_one, List.map_cons]
  · norm_num [c3s, c3pi]
  · norm_num [c3s, c3x]
  · norm_num [c3s, c3x, c3pi]
  · intro j
    norm_num [c3s, c3x, c3pi, gradAt, jacAt, jacRowAt, Matrix.mulVec,
      Matrix.dotProduct, Matrix.transpose, Fin.sum_univ_one, Matrix.of_apply]

/-- C3 (amended): `_check_convergence(x, π)` returns true iff the dual
feasibility, primal feasibility and complementary slackness checks pass
with the code's tolerances `τ_x = tol·(1 + max(x))` and
`τ_π = tol·(1 + max(π))` (plain maxima of the entries — no absolute
values), and — only when at least one constraint exists — every component
of `∇f(x) - J(x)'π` is bounded by `τ_π` in absolute value; the
stationarity test sits inside the per-constraint loop, so with an empty
constraint list it is skipped entirely. -/
theorem c3_check_convergence_amended (s : Sqp n m) (st : SqpState n m) (x : Vec n)
    (pi : Vec m) (hwf : cacheWF s st x) :
    ((checkConvergence s st x pi).1 = true ↔
      ((∀ i, ¬ (pi i < -(s.tol * (1 + vecMax pi))))
        ∧ (∀ i, ¬ (s.cs i x < -(s.tol * (1 + vecMax x)))
            ∧ ¬ (s.tol * (1 + vecMax pi) < s.cs i x * pi i))
        ∧ (m = 0 ∨ ∀ j, |gradAt s x j - ((jacAt s x)ᵀ *ᵥ pi) j|
            ≤ s.tol * (1 + vecMax pi)))) := by
  simp only [checkConvergence]
  by_cases hdual : ∃ i, pi i < -(s.tol * (1 + vecMax pi))
  · rw [if_pos hdual]
    simp only [Bool.false_eq_true, false_iff]
    rintro ⟨hdall, -, -⟩
    obtain ⟨i, hi⟩ := hdual
    exact hdall i hi
  · rw [if_neg hdual]
    rw [ccLoop_true_iff s x pi (s.tol * (1 + vecMax x)) (s.tol * (1 + vecMax pi))
      (List.finRange m) st hwf]
    constructor
    · intro hall
      refine ⟨fun i hi => hdual ⟨i, hi⟩,
        fun i => ⟨(hall i (List.mem_finRange i)).1, (hall i (List.mem_finRange i)).2.1⟩, ?_⟩
      rcases Nat.eq_zero_or_pos m with hm | hm
      · exact Or.inl hm
      · right
        intro j
        by_contra hlt
        exact (hall ⟨0, hm⟩ (List.mem_finRange _)).2.2 ⟨j, lt_of_not_le hlt⟩
    · rintro ⟨-, hpc, hstat⟩ i hi
      refine ⟨(hpc i).1, (hpc i).2, ?_⟩
      rcases hstat with hm | hstat
      · subst hm
        exact i.elim0
      · rintro ⟨j, hj⟩
        exact absurd (hstat j) (not_le.mpr hj)

/-- C3 witness: the amended characterization instantiated on `c3sPass` at
`x = 0`, `π = 0` with an empty gradient cache. -/
theorem c3_witness :
    (checkConvergence c3sPass (initState 1 1) (fun _ => 0) (fun _ => 0)).1 = true ↔
      ((∀ i : Fin 1, ¬ ((fun _ : Fin 1 => (0:ℚ)) i
            < -(c3sPass.tol * (1 + vecMax (fun _ : Fin 1 => (0:ℚ))))))
        ∧ (∀ i : Fin 1, ¬ (c3sPass.cs i (fun _ => 0) < -(c3sPass.tol * (1 + vecMax (fun _ : Fin 1 => (0:ℚ)))))
            ∧ ¬ (c3sPass.tol * (1 + vecMax (fun _ : Fin 1 => (0:ℚ)))
                  < c3sPass.cs i (fun _ => 0) * (fun _ => (0:ℚ)) i))
        ∧ (1 = 0 ∨ ∀ j, |gradAt c3sPass (fun _ => 0) j
            - ((jacAt c3sPass (fun _ => 0))ᵀ *ᵥ (fun _ => 0)) j|
              ≤ c3sPass.tol * (1 + vecMax (fun _ : Fin 1 => (0:ℚ))))) := by
  exact c3_check_convergence_amended c3sPass (initState 1 1) (fun _ => 0) (fun _ => 0)
    (by intro h; simp [initState] at h)

/-! ### Claim C5 -/

theorem div_two_pow_succ (a : ℚ) (k : ℕ) : a / 2 / 2 ^ k = a / 2 ^ (k + 1) := by
  rw [div_div, ← pow_succ']

theorem lsLoop_eq_none (s : Sqp n m) (rho : Vec m) (xk : Vec n) (sk pik : Vec m)
    (xhat : Vec n) (shat pihat : Vec m) (m0 : ℚ) :
    ∀ (fuel : ℕ) (alpha : ℚ),
      (∀ k, k < fuel → ¬ (meritFunction s rho (lsCand xk xhat (alpha / 2 ^ k))
          (lsCand sk shat (alpha / 2 ^ k)) (lsCand pik pihat (alpha / 2 ^ k)) < m0)) →
      lsLoop s rho xk sk pik xhat shat pihat m0 fuel alpha = none := by
  intro fuel
  induction fuel with
  | zero =>
    intro alpha _
    rfl
  | succ fuel ih =>
    intro alpha h
    have h0 := h 0 (Nat.succ_pos fuel)
    rw [pow_zero, div_one] at h0
    simp only [lsLoop]
    rw [if_neg h0]
    apply ih
    intro k hk
    have := h (k + 1) (by omega)
    rw [← div_two_pow_succ] at this
    exact this

theorem lsLoop_eq_first (s : Sqp n m) (rho : Vec m) (xk : Vec n) (sk pik : Vec m)
    (xhat : Vec n) (shat pihat : Vec m) (m0 : ℚ) :
    ∀ (fuel : ℕ) (alpha : ℚ) (j : ℕ), j < fuel →
      (meritFunction s rho (lsCand xk xhat (alpha / 2 ^ j))
          (lsCand sk shat (alpha / 2 ^ j)) (lsCand pik pihat (alpha / 2 ^ j)) < m0) →
      (∀ i, i < j → ¬ (meritFunction s rho (lsCand xk xhat (alpha / 2 ^ i))
          (lsCand sk shat (alpha / 2 ^ i)) (lsCand pik pihat (alpha / 2 ^ i)) < m0)) →
      lsLoop s rho xk sk pik xhat shat pihat m0 fuel alpha
        = some (lsCand xk xhat (alpha / 2 ^ j), lsCand sk shat (alpha / 2 ^ j),
            lsCand pik pihat (alpha / 2 ^ j), alpha / 2 ^ j) := by
  intro fuel
  induction fuel with
  | zero =>
    intro alpha j hj
    exact absurd hj (Nat.not_lt_zero j)
  | succ fuel ih =>
    intro alpha j hj himpr hmin
    simp only [lsLoop]
    cases j with
    | zero =>
      rw [pow_zero, div_one] at himpr
      rw [if_pos himpr, pow_zero, div_one]
    | succ j =>
      have h0 := hmin 0 (Nat.succ_pos j)
      rw [pow_zero, div_one] at h0
      rw [if_neg h0]
      have hres := ih (alpha / 2) j (by omega)
        (by rw [div_two_pow_succ]; exact himpr)
        (fun i hi => by rw [div_two_pow_succ]; exact hmin (i + 1) (by omega))
      rw [div_two_pow_succ] at hres
      exact hres

/-- C5: `_line_search` starts at `α = 1` and repeatedly forms the convex
combination `(1-α)·x_k + α·x̂` (and likewise for `s` and `π`), returning
the first triple whose merit value
`φ(x,s,π) = f(x) - π'(c(x)-s) + ½ Σ_j ρ_j (c_j(x)-s_j)²` is strictly
below `φ(x_k,s_k,π_k)` and halving `α` otherwise; exhausting all 30
trials without an improving point raises the fatal `LineSearchFailure`,
which the solve loop propagates immediately with no retry. -/
theorem c5_line_search_spec (s : Sqp n m) (st : SqpState n m) (xk : Vec n) (sk pik : Vec m)
    (xhat : Vec n) (shat pihat : Vec m) :
    ((∀ j, j < 30 → ¬ (meritFunction s (updateRho s st xk sk pik xhat pihat).rho
          (lsCand xk xhat (1 / 2 ^ j)) (lsCand sk shat (1 / 2 ^ j))
          (lsCand pik pihat (1 / 2 ^ j))
        < meritFunction s (updateRho s st xk sk pik xhat pihat).rho xk sk pik)) →
      (lineSearch s st xk sk pik xhat shat pihat).1
        = Except.error SqpError.lineSearchFailure)
    ∧ (∀ j, j < 30 →
        (meritFunction s (updateRho s st xk sk pik xhat pihat).rho
            (lsCand xk xhat (1 / 2 ^ j)) (lsCand sk shat (1 / 2 ^ j))
            (lsCand pik pihat (1 / 2 ^ j))
          < meritFunction s (updateRho s st xk sk pik xhat pihat).rho xk sk pik) →
        (∀ i, i < j → ¬ (meritFunction s (updateRho s st xk sk pik xhat pihat).rho
            (lsCand xk xhat (1 / 2 ^ i)) (lsCand sk shat (1 / 2 ^ i))
            (lsCand pik pihat (1 / 2 ^ i))
          < meritFunction s (updateRho s st xk sk pik xhat pihat).rho xk sk pik)) →
        (lineSearch s st xk sk pik xhat shat pihat).1
          = Except.ok (lsCand xk xhat (1 / 2 ^ j), lsCand sk shat (1 / 2 ^ j),
              lsCand pik pihat (1 / 2 ^ j), 1 / 2 ^ j))
    ∧ (∀ (k : ℕ) (xh : Vec n) (sh ph : Vec m) (it : ℕ) (e : SqpError),
        (solveQp s (computeGradients s st xk) xk).1 = Except.ok (xh, sh, ph, it) →
        (lineSearch s (solveQp s (computeGradients s st xk) xk).2 xk sk pik xh sh ph).1
          = Except.error e →
        (solveLoop s (k + 1) st xk sk pik).1 = Except.error e) := by
  refine ⟨?_, ?_, ?_⟩
  · intro h
    simp only [lineSearch]
    rw [lsLoop_eq_none s (updateRho s st xk sk pik xhat pihat).rho xk sk pik xhat shat
      pihat _ 30 1 h]
  · intro j hj himpr hmin
    simp only [lineSearch]
    rw [lsLoop_eq_first s (updateRho s st xk sk pik xhat pihat).rho xk sk pik xhat shat
      pihat _ 30 1 j hj himpr hmin]
  · intro k xh sh ph it e h1 h2
    simp only [solveLoop]
    rcases hsq : solveQp s (computeGradients s st xk) xk with ⟨res, st2⟩
    rw [hsq] at h1 h2
    simp only at h1 h2
    rw [h1]
    dsimp only
    rcases hls : lineSearch s st2 xk sk pik xh sh ph with ⟨res2, st3⟩
    rw [hls] at h2
    simp only at h2
    rw [h2]

/-- C5 witness: with the constant-zero objective `c5sFlat` no trial
improves the merit function and the line search fails fatally, aborting
the solve loop; with the linear objective `c5sLin` the very first trial
`α = 1` is accepted. -/
theorem c5_witness :
    ((lineSearch c5sFlat (initState 1 0) (fun _ => 0) (fun i => i.elim0) (fun i => i.elim0)
        (fun _ => 0) (fun i => i.elim0) (fun i => i.elim0)).1
      = Except.error SqpError.lineSearchFailure)
    ∧ ((lineSearch c5sLin (initState 1 0) (fun _ => 1) (fun i => i.elim0) (fun i => i.elim0)
        (fun _ => 0) (fun i => i.elim0) (fun i => i.elim0)).1
      = Except.ok (lsCand (fun _ => 1) (fun _ => 0) (1 / 2 ^ 0),
          lsCand (fun i => i.elim0) (fun i => i.elim0) (1 / 2 ^ 0),
          lsCand (fun i => i.elim0) (fun i => i.elim0) (1 / 2 ^ 0), 1 / 2 ^ 0))
    ∧ ((solveLoop c5sFlat 1 (initState 1 0) (fun _ => 0) (fun i => i.elim0)
        (fun i => i.elim0)).1 = Except.error SqpError.lineSearchFailure) := by
  have hflat : ∀ (st' : SqpState 1 0) (xh : Vec 1) (sh ph : Vec 0),
      (lineSearch c5sFlat st' (fun _ => 0) (fun i => i.elim0) (fun i => i.elim0)
        xh sh ph).1 = Except.error SqpError.lineSearchFailure := by
    intro st' xh sh ph
    refine (c5_line_search_spec c5sFlat st' (fun _ => 0) (fun i => i.elim0) (fun i => i.elim0)
      xh sh ph).1 ?_
    intro j hj
    norm_num [meritFunction, c5sFlat, evaluateConstraints, Matrix.dotProduct,
      Finset.univ_eq_empty, Finset.sum_empty]
  refine ⟨hflat _ _ _ _, ?_, ?_⟩
  · refine (c5_line_search_spec c5sLin (initState 1 0) (fun _ => 1) (fun i => i.elim0)
      (fun i => i.elim0) (fun _ => 0) (fun i => i.elim0) (fun i => i.elim0)).2.1 0
      (by norm_num) ?_ (fun i hi => absurd hi (Nat.not_lt_zero i))
    norm_num [meritFunction, c5sLin, evaluateConstraints, Matrix.dotProduct,
      Finset.univ_eq_empty, Finset.sum_empty, lsCand]
  · refine (c5_line_search_spec c5sFlat (initState 1 0) (fun _ => 0) (fun i => i.elim0)
      (fun i => i.elim0) (fun _ => 0) (fun i => i.elim0) (fun i => i.elim0)).2.2 0
      (fun _ => 0) (fun i => i.elim0) (fun i => i.elim0) 0 SqpError.lineSearchFailure
      ?_ (hflat _ _ _ _)
    simp only [solveQp]
    norm_num [c5sFlat, Sqp.minorTol]

/-! ### Solve-loop unfolding equations and state-preservation lemmas -/

theorem solveLoop_zero (s : Sqp n m) (st : SqpState n m) (xk : Vec n) (sk pik : Vec m) :
    solveLoop s 0 st xk sk pik
      = (Except.ok (xk, s.f xk, evaluateConstraints s xk), st) := rfl

theorem solveLoop_succ_unfold (s : Sqp n m) (fuel : ℕ) (st : SqpState n m) (xk : Vec n)
    (sk pik : Vec m) :
    solveLoop s (fuel + 1) st xk sk pik =
      (match solveQp s (computeGradients s st xk) xk with
      | (Except.error e, st2) => (Except.error e, st2)
      | (Except.ok (xhat, shat, pihat, _), st2) =>
        match lineSearch s st2 xk sk pik xhat shat pihat with
        | (Except.error e, st3) => (Except.error e, st3)
        | (Except.ok (xk1, sk1, pik1, alpha), st3) =>
          let r := updateHessianApproximation s st3 xk xk1 xhat pik1 alpha
          let cc := checkConvergence s r.st xk1 pik1
          if cc.1 then (Except.ok (xk1, s.f xk1, evaluateConstraints s xk1), cc.2)
          else solveLoop s fuel cc.2 xk1 sk1 pik1) := rfl

theorem updateHessian_preserves_rho (s : Sqp n m) (st : SqpState n m) (x0 x1 xhat : Vec n)
    (pi1 : Vec m) (alpha : ℚ) :
    (updateHessianApproximation s st x0 x1 xhat pi1 alpha).st.rho = st.rho := by
  simp only [updateHessianApproximation, applyHessDecision]
  split
  · simp [computeGradients_rho]
  · simp [computeGradients_rho]

/-! ### Claim C10 -/

/-- C10: the penalty vector `ρ` is created all-zero in the constructor and
is never reset by `solve()`: the pre-loop initialization only resets `H`
to the identity (with `x_k`, `s_k`, `π_k` re-seeded as locals), so a
second `solve()` on the same instance begins with whatever `ρ` the
previous run left behind — concretely, after one iteration of `c10s` the
instance carries `ρ = (5/2) ≠ 0` into any later `solve()` call. -/
theorem c10_rho_persists_across_solves (n m : ℕ) :
    ((initState n m).rho = fun _ => 0)
    ∧ (∀ st : SqpState n m, (solveInitState st).rho = st.rho ∧ (solveInitState st).H = 1)
    ∧ (∀ (s : Sqp n m) (st : SqpState n m) (x0 : Vec n) (k : ℕ),
        solve s st x0 k = solveLoop s k (solveInitState st) x0 (fun _ => 0) (fun _ => 0))
    ∧ ((solve c10s (initState 1 1) (fun _ => 0) 1).2.rho = fun _ => 5/2) := by
  refine ⟨rfl, fun st => ⟨rfl, rfl⟩, fun s st x0 k => rfl, ?_⟩
  have hcg : computeGradients c10s (solveInitState (initState 1 1)) (fun _ => 0)
      = (⟨fun _ => 0, 1, some (fun _ => 0), fun _ => 1, Matrix.of fun _ _ => 1⟩
          : SqpState 1 1) := by
    rw [computeGradients_miss _ _ _ (by simp [solveInitState, initState])]
    rfl
  have hqp : solveQp c10s
      (⟨fun _ => 0, 1, some (fun _ => 0), fun _ => 1, Matrix.of fun _ _ => 1⟩ : SqpState 1 1)
      (fun _ => 0)
      = (Except.ok (fun _ => 1, fun _ => 2, fun _ => -2, 0),
          ⟨fun _ => 0, 1, some (fun _ => 0), fun _ => 1, Matrix.of fun _ _ => 1⟩) := by
    simp only [solveQp]
    rw [computeGradients_hit _ _ _ rfl]
    norm_num [c10s, Sqp.minorTol]
  have hrho : solvePosProblem (rhoA c10s (fun _ => 0) (fun _ => 0))
      (rhoRhs c10s
        (⟨fun _ => 0, 1, some (fun _ => 0), fun _ => 1, Matrix.of fun _ _ => 1⟩ : SqpState 1 1)
        (fun _ => 0) (fun _ => 0) (fun _ => 0) (fun _ => 1) (fun _ => -2))
      = fun _ => 5/2 := by
    funext i
    norm_num [solvePosProblem, rhoA, rhoRhs, evaluateConstraints, c10s,
      Fin.sum_univ_one, Matrix.dotProduct, Matrix.mulVec, Matrix.one_apply]
  have hur : updateRho c10s
      (⟨fun _ => 0, 1, some (fun _ => 0), fun _ => 1, Matrix.of fun _ _ => 1⟩ : SqpState 1 1)
      (fun _ => 0) (fun _ => 0) (fun _ => 0) (fun _ => 1) (fun _ => -2)
      = (⟨fun _ => 5/2, 1, some (fun _ => 0), fun _ => 1, Matrix.of fun _ _ => 1⟩
          : SqpState 1 1) := by
    simp only [updateRho]
    rw [computeGradients_hit _ _ _ rfl]
    rw [if_pos ?hcond]
    case hcond =>
      constructor
      · norm_num [rhoRhs, evaluateConstraints, c10s, Fin.sum_univ_one,
          Matrix.dotProduct, Matrix.mulVec, Matrix.one_apply]
      · rw [vecMax_pos_iff]
        exact ⟨0, by norm_num [rhoA, c10s, evaluateConstraints]⟩
    rw [hrho]
  have hls : lineSearch c10s
      (⟨fun _ => 0, 1, some (fun _ => 0), fun _ => 1, Matrix.of fun _ _ => 1⟩ : SqpState 1 1)
      (fun _ => 0) (fun _ => 0) (fun _ => 0) (fun _ => 1) (fun _ => 2) (fun _ => -2)
      = (Except.ok (fun _ => 1, fun _ => 2, fun _ => -2, 1),
          ⟨fun _ => 5/2, 1, some (fun _ => 0), fun _ => 1, Matrix.of fun _ _ => 1⟩) := by
    simp only [lineSearch]
    rw [hur]
    rw [lsLoop_eq_first c10s _ _ _ _ _ _ _ _ 30 1 0 (by norm_num)
      (by norm_num [meritFunction, lsCand, evaluateConstraints, c10s,
        Fin.sum_univ_one, Matrix.dotProduct])
      (fun i hi => absurd hi (Nat.not_lt_zero i))]
    norm_num [lsCand, Prod.ext_iff, funext_iff, Fin.forall_fin_one]
  have hcc : ∀ st' : SqpState 1 1,
      checkConvergence c10s st' (fun _ => 1) (fun _ => -2) = (false, st') := by
    intro st'
    simp only [checkConvergence]
    rw [if_pos ⟨0, by norm_num [c10s, vecMax, pyMax, List.ofFn_succ]⟩]
  have h0 : solve c10s (initState 1 1) (fun _ => 0) 1
      = solveLoop c10s (0 + 1) (solveInitState (initState 1 1)) (fun _ => 0) (fun _ => 0)
          (fun _ => 0) := rfl
  rw [h0, solveLoop_succ_unfold, hcg, hqp]
  dsimp only
  rw [hls]
  dsimp only
  rw [hcc]
  simp [solveLoop_zero, updateHessian_preserves_rho]

/-! ### Claim C9 -/

/-- C9 (code-bug evidence): on the strongly convex unconstrained quadratic
`f(x) = (3/2)x²` from `x0 = 1` (analytic gradient, exact QP oracle,
`tol = 1/100`), `solve` declares convergence after its very first
iteration and returns `x = -1/2`: because the constraint list is empty,
`_check_convergence` never executes the stationarity test that sits
inside its per-constraint loop.  The unique minimizer is `0`, the
returned point violates stationarity by `3/2 ≫ τ_π`, and its distance to
the minimizer exceeds the tolerance. -/
theorem c9_unconstrained_premature_convergence :
    (solve c9s (initState 1 0) (fun _ => 1) 2).1
      = Except.ok (fun _ => -(1/2), c9s.f (fun _ => -(1/2)),
          evaluateConstraints c9s (fun _ => -(1/2)))
    ∧ c9s.f (fun _ => -(1/2)) = 3/8
    ∧ (∀ z : ℚ, c9s.f (fun _ => 0) ≤ c9s.f (fun _ => z))
    ∧ ¬ (|gradAt c9s (fun _ => -(1/2)) 0 - 0| ≤ c9s.tol * (1 + |(-(1/2) : ℚ)|))
    ∧ c9s.tol < |(-(1/2) : ℚ) - 0| := by
  have hcg9 : computeGradients c9s (solveInitState (initState 1 0)) (fun _ => 1)
      = (⟨fun _ => 0, 1, some (fun _ => 1), fun _ => 3, 0⟩ : SqpState 1 0) := by
    have hg : gradAt c9s (fun _ => 1) = fun _ => (3:ℚ) := by
      funext i
      norm_num [gradAt, c9s]
    have hjac : jacAt c9s (fun _ => 1) = 0 := by
      funext i j
      exact i.elim0
    rw [computeGradients_miss _ _ _ (by simp [solveInitState, initState]), hg, hjac]
    rfl
  have hqp9 : solveQp c9s (⟨fun _ => 0, 1, some (fun _ => 1), fun _ => 3, 0⟩ : SqpState 1 0)
      (fun _ => 1)
      = (Except.ok (fun _ => -2, fun i => i.elim0, fun i => i.elim0, 0),
          ⟨fun _ => 0, 1, some (fun _ => 1), fun _ => 3, 0⟩) := by
    simp only [solveQp]
    rw [computeGradients_hit _ _ _ rfl]
    norm_num [c9s, Sqp.minorTol]
  have hur9 : updateRho c9s (⟨fun _ => 0, 1, some (fun _ => 1), fun _ => 3, 0⟩ : SqpState 1 0)
      (fun _ => 1) (fun _ => 0) (fun _ => 0) (fun _ => -2) (fun i => i.elim0)
      = (⟨fun _ => 0, 1, some (fun _ => 1), fun _ => 3, 0⟩ : SqpState 1 0) := by
    simp only [updateRho]
    rw [computeGradients_hit _ _ _ rfl]
    rw [if_neg (by norm_num [vecMax, pyMax, List.ofFn_zero])]
  have hls9 : lineSearch c9s (⟨fun _ => 0, 1, some (fun _ => 1), fun _ => 3, 0⟩ : SqpState 1 0)
      (fun _ => 1) (fun _ => 0) (fun _ => 0) (fun _ => -2) (fun i => i.elim0)
      (fun i => i.elim0)
      = (Except.ok (fun _ => -(1/2), fun _ => 0, fun _ => 0, 1/2),
          ⟨fun _ => 0, 1, some (fun _ => 1), fun _ => 3, 0⟩) := by
    simp only [lineSearch]
    rw [hur9]
    rw [lsLoop_eq_first c9s _ _ _ _ _ _ _ _ 30 1 1 (by norm_num)
      (by norm_num [meritFunction, lsCand, c9s, evaluateConstraints, Matrix.dotProduct,
        Finset.univ_eq_empty, Finset.sum_empty])
      ?hmin]
    case hmin =>
      intro i hi
      have : i = 0 := by omega
      subst this
      norm_num [meritFunction, lsCand, c9s, evaluateConstraints, Matrix.dotProduct,
        Finset.univ_eq_empty, Finset.sum_empty]
    norm_num [lsCand, Prod.ext_iff, funext_iff, Fin.forall_fin_one, IsEmpty.forall_iff]
  have hcc9 : ∀ st' : SqpState 1 0,
      checkConvergence c9s st' (fun _ => -(1/2)) (fun _ => 0) = (true, st') := by
    intro st'
    simp only [checkConvergence]
    rw [if_neg (by simp), List.finRange_zero]
    rfl
  have h0 : solve c9s (initState 1 0) (fun _ => 1) 2
      = solveLoop c9s (1 + 1) (solveInitState (initState 1 0)) (fun _ => 1) (fun _ => 0)
          (fun _ => 0) := rfl
  have habs1 : |(1:ℚ)/2| = 1/2 := abs_of_pos (by norm_num)
  have habs3 : |(3:ℚ)/2| = 3/2 := abs_of_pos (by norm_num)
  refine ⟨?_, by norm_num [c9s], ?_, ?_, ?_⟩
  · rw [h0, solveLoop_succ_unfold, hcg9, hqp9]
    dsimp only
    rw [hls9]
    dsimp only
    rw [hcc9]
    simp
  · intro z
    simp only [c9s]
    nlinarith [mul_self_nonneg z]
  · norm_num [gradAt, c9s]
    rw [habs1, habs3]
    norm_num
  · norm_num [c9s]
    rw [habs1]
    norm_num

end SqpSpec
